import Mathlib

/-!
# Shallow embedding of the diet_manager core (Item Catalog, Day Log, Command History)

This file embeds the C++ sources of the diet_manager repository into Lean 4 and
proves properties of the embedded definitions.

Embedding conventions:
* C++ `double` is modelled as `ℚ` (exact arithmetic; the code performs only
  additions, multiplications and comparisons on these values).
* `std::shared_ptr<Food>` components and log entries are modelled by the food's
  id (`String`): within a `FoodDatabase`, ids are unique and each id names one
  shared object, so pointer identity and id identity coincide for objects
  reachable from the database.  A null `std::shared_ptr` argument is modelled
  as `Option.none`.
* `std::map` keyed by strings or pointers is modelled as an association list;
  the iteration order of `std::map` differs (sorted by key), which is
  irrelevant to every property below (sums over ℚ are commutative and the
  properties are stated via lookups).
* `CompositeFood::getCaloriesPerServing` recurses through the component graph
  with no termination guard; the embedding `valuePerServing` takes an explicit
  fuel parameter.  On acyclic databases with sufficient fuel it computes the
  same value as the C++ recursion (proved below); the fuel-exhaustion value 0
  is never reached in that situation.
* `LogEntry::generateId` produces a random UUID; the embedding draws ids from
  a deterministic counter (`idSupply`) threaded through the state.  Nothing in
  the verified code inspects the structure of an id.
* `std::cerr` warnings are output only and are not modelled.
-/

namespace DietManager

/-- Meal type tag stored with each consumed food (src/src/models/log_entry.cpp). -/
inductive MealType where
  | BREAKFAST | LUNCH | DINNER | SNACK | OTHER
deriving DecidableEq, Repr

/-! ## Keyword matching (BasicFood.cpp and CompositeFood.cpp, identical logic) -/

/-- Case-insensitive string equality: the C++ code compares the two strings
elementwise with `std::tolower` on each char via the four-iterator
`std::equal`, which also requires equal lengths. -/
def lowerEq (a b : String) : Bool :=
  a.data.map Char.toLower = b.data.map Char.toLower

/-- `matchesKeyword` over a keyword list: an empty search keyword matches
nothing; otherwise some stored keyword is case-insensitively equal to it
(`BasicFood::matchesKeyword`, `CompositeFood::matchesKeyword`). -/
def matchesKeyword (keywords : List String) (keyword : String) : Bool :=
  if keyword.isEmpty then false
  else keywords.any (fun k => lowerEq keyword k)

/-- `matchesAllKeywords`: empty search list matches everything, otherwise all
keywords must match. -/
def matchesAllKeywords (keywords : List String) (searchKeywords : List String) : Bool :=
  if searchKeywords.isEmpty then true
  else searchKeywords.all (fun kw => matchesKeyword keywords kw)

/-- `matchesAnyKeyword`: empty search list matches nothing, otherwise at least
one keyword must match. -/
def matchesAnyKeyword (keywords : List String) (searchKeywords : List String) : Bool :=
  if searchKeywords.isEmpty then false
  else searchKeywords.any (fun kw => matchesKeyword keywords kw)

/-! ## Foods (src/unnamed/part_008: basic_food.h, composite_food.cpp) -/

/-- `BasicFood`: id, keywords and a stored per-serving calorie value. -/
structure BasicFood where
  id : String
  keywords : List String
  caloriesPerServing : ℚ
deriving DecidableEq, Repr

/-- `CompositeFood`: id, keywords and a component map.  The C++ component map
is keyed by `shared_ptr<Food>`; within a database each component pointer is
the unique object with its id, so components are keyed here by id. -/
structure CompositeFood where
  id : String
  keywords : List String
  components : List (String × ℚ)
deriving DecidableEq, Repr

/-- The `Food` interface: every food is a `BasicFood` or a `CompositeFood`. -/
inductive Food where
  | basic (b : BasicFood)
  | composite (c : CompositeFood)
deriving DecidableEq, Repr

def Food.getId : Food → String
  | .basic b => b.id
  | .composite c => c.id

def Food.getKeywords : Food → List String
  | .basic b => b.keywords
  | .composite c => c.keywords

/-- Insert-or-update in an association list, modelling `components[food] = servings`
for a pointer already present (update in place) or fresh (insert). -/
def upsert : List (String × ℚ) → String → ℚ → List (String × ℚ)
  | [], key, v => [(key, v)]
  | (k, w) :: rest, key, v =>
      if k = key then (key, v) :: rest else (k, w) :: upsert rest key v

/-- `CompositeFood::addComponent` (src/unnamed/part_008 lines 135-156):
reject a null pointer; replace non-positive servings by 1.0; reject a direct
self-reference; otherwise insert or update the component. -/
def CompositeFood.addComponent (c : CompositeFood) (food : Option String)
    (servings : ℚ) : CompositeFood :=
  match food with
  | none => c
  | some fid =>
      let s := if servings ≤ 0 then 1 else servings
      if fid = c.id then c
      else { c with components := upsert c.components fid s }

/-- `CompositeFood::removeComponent`: erase every component whose id matches. -/
def CompositeFood.removeComponent (c : CompositeFood) (foodId : String) : CompositeFood :=
  { c with components := c.components.filter (fun p => p.1 ≠ foodId) }

/-! ## FoodDatabase (src/unnamed/part_012: food_database.cpp) -/

/-- `FoodDatabase`: a map from food id to the (unique) food object with that id.
File paths are I/O configuration and are not modelled. -/
structure FoodDatabase where
  foods : List (String × Food)
deriving DecidableEq, Repr

/-- First-match association-list lookup (models `std::map::find`). -/
def lookupFood : List (String × Food) → String → Option Food
  | [], _ => none
  | (k, f) :: rest, id => if k = id then some f else lookupFood rest id

/-- `FoodDatabase::getFood`. -/
def FoodDatabase.getFood (db : FoodDatabase) (id : String) : Option Food :=
  lookupFood db.foods id

/-- `FoodDatabase::addFood` (src/unnamed/part_012 lines 28-40): reject a null
pointer; reject a duplicate id; otherwise insert.  Returns the success flag and
the updated database. -/
def FoodDatabase.addFood (db : FoodDatabase) (food : Option Food) :
    Bool × FoodDatabase :=
  match food with
  | none => (false, db)
  | some f =>
      if (db.getFood f.getId).isSome then (false, db)
      else (true, { foods := db.foods ++ [(f.getId, f)] })

/-- Erase every binding of a key (at most one exists in a `std::map`). -/
def eraseKey : List (String × Food) → String → List (String × Food)
  | [], _ => []
  | (k, f) :: rest, id =>
      if k = id then eraseKey rest id else (k, f) :: eraseKey rest id

/-- `FoodDatabase::removeFood` (src/unnamed/part_012 lines 42-44):
`return foods.erase(id) > 0` — unconditionally erase the key, reporting whether
something was erased. -/
def FoodDatabase.removeFood (db : FoodDatabase) (id : String) :
    Bool × FoodDatabase :=
  ((db.getFood id).isSome, { foods := eraseKey db.foods id })

/-- `FoodDatabase::getAllFoods`. -/
def FoodDatabase.getAllFoods (db : FoodDatabase) : List Food :=
  db.foods.map (fun p => p.2)

/-- Dispatch of the per-food keyword predicates: `searchByAllKeywords` casts each
entry to `BasicFood` or `CompositeFood` and calls the class's
`matchesAllKeywords`; both classes implement the identical logic. -/
def Food.matchesAllKeywords (f : Food) (searchKeywords : List String) : Bool :=
  DietManager.matchesAllKeywords f.getKeywords searchKeywords

def Food.matchesAnyKeyword (f : Food) (searchKeywords : List String) : Bool :=
  DietManager.matchesAnyKeyword f.getKeywords searchKeywords

/-- `FoodDatabase::searchByAllKeywords` (src/unnamed/part_012 lines 86-107):
an empty keyword list short-circuits to `getAllFoods`. -/
def FoodDatabase.searchByAllKeywords (db : FoodDatabase)
    (keywords : List String) : List Food :=
  if keywords.isEmpty then db.getAllFoods
  else
    (db.foods.filter (fun p => p.2.matchesAllKeywords keywords)).map (fun p => p.2)

/-- `FoodDatabase::searchByAnyKeyword` (src/unnamed/part_012 lines 109-130):
an empty keyword list also short-circuits to `getAllFoods`. -/
def FoodDatabase.searchByAnyKeyword (db : FoodDatabase)
    (keywords : List String) : List Food :=
  if keywords.isEmpty then db.getAllFoods
  else
    (db.foods.filter (fun p => p.2.matchesAnyKeyword keywords)).map (fun p => p.2)

/-- The pointer handed to `CompositeFood::addComponent` by callers is
`db.getFood(fid)`: a live pointer (its id) when the id is present, null
otherwise. -/
def FoodDatabase.foodPtr (db : FoodDatabase) (fid : String) : Option String :=
  if (db.getFood fid).isSome then some fid else none

/-- Update the food object stored under a key; models mutation of the shared
object through its pointer (all holders of the pointer observe the update). -/
def updateFoodAt : List (String × Food) → String → Food → List (String × Food)
  | [], _, _ => []
  | (k, f) :: rest, id, nf =>
      if k = id then (k, nf) :: rest else (k, f) :: updateFoodAt rest id nf

/-- The caller-side flow for editing a composite's components (as in the CLI):
fetch the composite by id, fetch the component pointer, call `addComponent`.
If the id does not name a composite, nothing happens. -/
def FoodDatabase.addComponentTo (db : FoodDatabase) (compId fid : String)
    (servings : ℚ) : FoodDatabase :=
  match db.getFood compId with
  | some (Food.composite c) =>
      { foods := updateFoodAt db.foods compId
          (Food.composite (c.addComponent (db.foodPtr fid) servings)) }
  | _ => db

/-! ## Component closure and recursive value computation -/

/-- Direct component ids of a catalog item (empty for a leaf or a missing id). -/
def directComponents (db : FoodDatabase) (id : String) : List String :=
  match db.getFood id with
  | some (Food.composite c) => c.components.map (fun p => p.1)
  | _ => []

/-- Bounded reachability through the component graph: `reachesB db n src tgt`
holds when some chain of 1 to `n` component edges leads from `src` to `tgt`. -/
def reachesB (db : FoodDatabase) : Nat → String → String → Bool
  | 0, _, _ => false
  | n + 1, src, tgt =>
      (directComponents db src).any (fun c => c = tgt || reachesB db n c tgt)

/-- The component closure of `id` contains `id` itself: a cycle through `id`.
Paths never need more than `|db|` edges to witness a cycle. -/
def inOwnClosure (db : FoodDatabase) (id : String) : Bool :=
  reachesB db db.foods.length id id

/-- `valuePerServing(id)` with explicit fuel.  `BasicFood::getCaloriesPerServing`
returns the stored value; `CompositeFood::getCaloriesPerServing`
(src/unnamed/part_008 lines 91-106) accumulates
`component->getCaloriesPerServing() * servings` over its components.
A missing id contributes 0 (the code's null-component branch; components added
through `addComponent` are always live within the database). -/
def valuePerServing (db : FoodDatabase) : Nat → String → ℚ
  | 0, _ => 0
  | n + 1, id =>
      match db.getFood id with
      | none => 0
      | some (Food.basic b) => b.caloriesPerServing
      | some (Food.composite c) =>
          c.components.foldl (fun acc p => acc + valuePerServing db n p.1 * p.2) 0

/-- A rank function witnessing acyclicity: every component edge strictly
decreases the rank.  Checked as a boolean over the finite database. -/
def rankOk (db : FoodDatabase) (r : String → Nat) : Bool :=
  db.foods.all (fun p =>
    match p.2 with
    | Food.composite c => c.components.all (fun q => r q.1 < r p.1)
    | Food.basic _ => true)

/-! ## Day Log (src/src/models/log_entry.cpp, src/src/managers/log_manager.cpp)

`LogManager` keys its entries by the `"YYYY-MM-DD"` date string; days are
modelled directly by that string.  Command stacks are kept separate from the
record/entry state (`LogState`) below, which mirrors the C++ field layout
(`logEntries` plus the two `std::stack`s): `addFoodToLog`, `removeFoodFromLog`
and `getLogEntry` read and write only `logEntries`, never the stacks. -/

/-- One element of `LogEntry::consumedFoods`: the food (by id), servings, and
meal type (`std::tuple<std::shared_ptr<Food>, double, MealType>`). -/
structure FoodEntry where
  foodId : String
  servings : ℚ
  mealType : MealType
deriving DecidableEq, Repr

/-- `LogEntry`: generated id, date, and the consumed-food list. -/
structure LogEntryM where
  id : Nat
  date : String
  consumedFoods : List FoodEntry
deriving DecidableEq, Repr

/-- First-match servings lookup in a consumed-food list (the loop pattern used
by `removeFoodFromLog` and the `RemoveFoodCommand` constructor). -/
def findServings : List FoodEntry → String → Option ℚ
  | [], _ => none
  | e :: rest, fid => if e.foodId = fid then some e.servings else findServings rest fid

/-- The in-place merge of `LogEntry::addFood` (src/src/models/log_entry.cpp
lines 26-45): update the first entry with a matching id, else append. -/
def addFoodList : List FoodEntry → String → ℚ → MealType → List FoodEntry
  | [], fid, s, m => [⟨fid, s, m⟩]
  | e :: rest, fid, s, m =>
      if e.foodId = fid then { e with servings := e.servings + s } :: rest
      else e :: addFoodList rest fid s m

/-- `LogEntry::addFood`: reject non-positive servings (the null-food branch is
unreachable here: the only caller passes a food fetched from the database);
otherwise merge into the first matching entry or append at the end. -/
def LogEntryM.addFood (e : LogEntryM) (fid : String) (servings : ℚ)
    (mealType : MealType) : LogEntryM :=
  if servings ≤ 0 then e
  else { e with consumedFoods := addFoodList e.consumedFoods fid servings mealType }

/-- The erase-remove idiom of `LogEntry::removeFood`: drop every entry whose
food id matches. -/
def removeAllFood : List FoodEntry → String → List FoodEntry
  | [], _ => []
  | e :: rest, fid =>
      if e.foodId = fid then removeAllFood rest fid else e :: removeAllFood rest fid

/-- `LogEntry::removeFood`: erase every entry whose food id matches. -/
def LogEntryM.removeFood (e : LogEntryM) (fid : String) : LogEntryM :=
  { e with consumedFoods := removeAllFood e.consumedFoods fid }

/-- `LogEntry::getTotalCalories`: sum of `getCaloriesPerServing() * servings`
over the consumed foods, against the current database (with fuel for the
recursive composite computation). -/
def totalCaloriesList (db : FoodDatabase) (fuel : Nat) : List FoodEntry → ℚ :=
  List.foldl (fun acc e => acc + valuePerServing db fuel e.foodId * e.servings) 0

/-- The record-bearing part of `LogManager`: the date-keyed entry map and the
id supply standing in for the random UUID generator. -/
structure LogState where
  entries : List (String × LogEntryM)
  idSupply : Nat
deriving DecidableEq, Repr

def lookupEntry : List (String × LogEntryM) → String → Option LogEntryM
  | [], _ => none
  | (k, e) :: rest, d => if k = d then some e else lookupEntry rest d

/-- Replace the entry stored under an existing date key (mutation through the
`shared_ptr<LogEntry>` held in the map). -/
def updateEntryAt : List (String × LogEntryM) → String → LogEntryM →
    List (String × LogEntryM)
  | [], _, _ => []
  | (k, e) :: rest, d, ne =>
      if k = d then (k, ne) :: rest else (k, e) :: updateEntryAt rest d ne

/-- `LogManager::getLogEntry` (src/src/managers/log_manager.cpp lines 63-73):
return the entry for the date, creating an empty entry (with a fresh generated
id) if none exists.  Returns the entry together with the possibly-extended
state. -/
def getLogEntry (st : LogState) (date : String) : LogEntryM × LogState :=
  match lookupEntry st.entries date with
  | some e => (e, st)
  | none =>
      let e : LogEntryM := ⟨st.idSupply, date, []⟩
      (e, ⟨st.entries ++ [(date, e)], st.idSupply + 1⟩)

/-- `LogManager::addFoodToLog` (lines 75-86): fail if the food id is absent
from the database or servings are non-positive; otherwise add to the date's
entry (creating it if needed) with meal type `OTHER`. -/
def addFoodToLog (db : FoodDatabase) (st : LogState) (foodId : String)
    (servings : ℚ) (date : String) : Bool × LogState :=
  if (db.getFood foodId).isNone ∨ servings ≤ 0 then (false, st)
  else
    let p := getLogEntry st date
    let e2 := p.1.addFood foodId servings MealType.OTHER
    (true, { p.2 with entries := updateEntryAt p.2.entries date e2 })

/-- `LogManager::removeFoodFromLog` (lines 88-107): fetch (or create!) the
date's entry, check whether a record for the food exists, and only then remove
it.  On the no-record path the state keeps the possibly freshly created empty
entry. -/
def removeFoodFromLog (st : LogState) (foodId : String) (date : String) :
    Bool × LogState :=
  let p := getLogEntry st date
  if (findServings p.1.consumedFoods foodId).isSome then
    let e2 := p.1.removeFood foodId
    (true, { p.2 with entries := updateEntryAt p.2.entries date e2 })
  else
    (false, p.2)

/-- `LogManager::getConsumedCalories` (lines 162-169): total calories of the
date's entry, 0 when the date has no entry.  This is the spec's
`totalValue(day)`. -/
def totalValue (db : FoodDatabase) (fuel : Nat) (st : LogState) (date : String) : ℚ :=
  match lookupEntry st.entries date with
  | some e => totalCaloriesList db fuel e.consumedFoods
  | none => 0

/-! ## Command History (src/src/managers/log_manager.cpp lines 11-53, 117-151) -/

/-- A command object: `AddFoodCommand` holds (foodId, servings, date, executed);
`RemoveFoodCommand` additionally uses its `servings` field for the value
captured at construction time. -/
inductive Cmd where
  | add (foodId : String) (servings : ℚ) (date : String) (executed : Bool)
  | remove (foodId : String) (servings : ℚ) (date : String) (executed : Bool)
deriving DecidableEq, Repr

/-- `AddFoodCommand::AddFoodCommand`: store the fields, `executed = false`. -/
def mkAddFoodCommand (foodId : String) (servings : ℚ) (date : String) : Cmd :=
  Cmd.add foodId servings date false

/-- `RemoveFoodCommand::RemoveFoodCommand` (lines 27-42): `servings` starts at
1.0, then the constructor fetches the date's entry (creating it if absent —
`getLogEntry` mutates) and captures the first matching record's servings. -/
def mkRemoveFoodCommand (st : LogState) (foodId : String) (date : String) :
    Cmd × LogState :=
  let p := getLogEntry st date
  let s := (findServings p.1.consumedFoods foodId).getD 1
  (Cmd.remove foodId s date false, p.2)

/-- `execute()`: run the underlying log operation and record its success in the
`executed` flag. -/
def Cmd.execute (db : FoodDatabase) : Cmd → LogState → Cmd × LogState
  | .add f s d _, st =>
      let p := addFoodToLog db st f s d
      (.add f s d p.1, p.2)
  | .remove f s d _, st =>
      let p := removeFoodFromLog st f d
      (.remove f s d p.1, p.2)

/-- `undo()`: a no-op unless `executed`; `AddFoodCommand::undo` removes the
whole record for its (food, date) and `RemoveFoodCommand::undo` adds back the
captured servings; both ignore the inner operation's result and clear the
flag. -/
def Cmd.undo (db : FoodDatabase) : Cmd → LogState → Cmd × LogState
  | .add f s d ex, st =>
      if ex then (.add f s d false, (removeFoodFromLog st f d).2)
      else (.add f s d ex, st)
  | .remove f s d ex, st =>
      if ex then (.remove f s d false, (addFoodToLog db st f s d).2)
      else (.remove f s d ex, st)

/-- The full `LogManager` state: records plus the two command stacks
(list head = stack top). -/
structure LogManager where
  st : LogState
  commandHistory : List Cmd
  redoStack : List Cmd
deriving DecidableEq, Repr

/-- A fresh `LogManager` (empty log, empty stacks). -/
def LogManager.init : LogManager := ⟨⟨[], 0⟩, [], []⟩

/-- `LogManager::executeCommand` (lines 117-125): execute, push onto the undo
stack, clear the redo stack. -/
def executeCommand (db : FoodDatabase) (σ : LogManager) (c : Cmd) : LogManager :=
  let p := c.execute db σ.st
  ⟨p.2, p.1 :: σ.commandHistory, []⟩

/-- `LogManager::undo` (lines 135-142): if the undo stack is nonempty, pop,
undo, push onto the redo stack; otherwise do nothing. -/
def LogManager.undo (db : FoodDatabase) (σ : LogManager) : LogManager :=
  match σ.commandHistory with
  | [] => σ
  | c :: rest =>
      let p := c.undo db σ.st
      ⟨p.2, rest, p.1 :: σ.redoStack⟩

/-- `LogManager::redo` (lines 144-151): if the redo stack is nonempty, pop,
re-execute, push back onto the undo stack; otherwise do nothing. -/
def LogManager.redo (db : FoodDatabase) (σ : LogManager) : LogManager :=
  match σ.redoStack with
  | [] => σ
  | c :: rest =>
      let p := c.execute db σ.st
      ⟨p.2, p.1 :: σ.commandHistory, rest⟩

/-- A user-level command request, as issued by the CLI: the CLI constructs the
command object and immediately passes it to `executeCommand`
(src/src/cli.cpp `handleAddFoodToLog` / `handleRemoveFoodFromLog`). -/
inductive CmdSpec where
  | addSpec (foodId : String) (servings : ℚ) (date : String)
  | removeSpec (foodId : String) (date : String)
deriving DecidableEq, Repr

/-- `run`: construct the command against the current state (the
`RemoveFoodCommand` constructor reads and may extend the state) and execute it
through the history. -/
def run (db : FoodDatabase) (σ : LogManager) : CmdSpec → LogManager
  | .addSpec f s d => executeCommand db σ (mkAddFoodCommand f s d)
  | .removeSpec f d =>
      let p := mkRemoveFoodCommand σ.st f d
      executeCommand db ⟨p.2, σ.commandHistory, σ.redoStack⟩ p.1

/-- A whole session of `run` calls. -/
def runAll (db : FoodDatabase) (σ : LogManager) : List CmdSpec → LogManager
  | [] => σ
  | spec :: rest => runAll db (run db σ spec) rest

/-! ## Observation functions and invariants -/

/-- The consumed-food list recorded for a day (empty when the day has no
entry). -/
def dayRecords (st : LogState) (date : String) : List FoodEntry :=
  match lookupEntry st.entries date with
  | some e => e.consumedFoods
  | none => []

/-- The servings recorded for a (day, food) pair: first matching record. -/
def servingsOf (st : LogState) (date foodId : String) : Option ℚ :=
  findServings (dayRecords st date) foodId

/-- Number of records for a food on a day. -/
def countFood (l : List FoodEntry) (foodId : String) : Nat :=
  (l.filter (fun e => e.foodId = foodId)).length

/-- Association lookup in a component list. -/
def lookupComp : List (String × ℚ) → String → Option ℚ
  | [], _ => none
  | (k, v) :: rest, id => if k = id then some v else lookupComp rest id

/-- Every day's record list mentions each food at most once (the log API
preserves this: `addFood` merges, `removeFood` deletes all matches). -/
def EntryIdsNodup (st : LogState) : Prop :=
  ∀ d e, lookupEntry st.entries d = some e →
    (e.consumedFoods.map (fun q => q.foodId)).Nodup

/-- Every record names a food present in the database and has positive
servings (the log API only admits database foods with positive servings). -/
def RecordsValid (db : FoodDatabase) (st : LogState) : Prop :=
  ∀ d f s, servingsOf st d f = some s → (db.getFood f).isSome ∧ 0 < s

/-- The reachable-state invariant of the Day Log. -/
def InvL (db : FoodDatabase) (st : LogState) : Prop :=
  EntryIdsNodup st ∧ RecordsValid db st

/-- Two log states carrying the same records: equal servings for every
(day, food) pair.  Day entries that differ only by lingering empty entries,
entry ids, record order or meal types are identified. -/
def StEquiv (st st' : LogState) : Prop :=
  ∀ d f, servingsOf st d f = servingsOf st' d f

/-! ## Traces of a session, for the undo/redo round-trip -/

/-- The command object a `run` call constructs and executes (with its final
`executed` flag). -/
def cmdOf (db : FoodDatabase) (st : LogState) : CmdSpec → Cmd
  | .addSpec f s d => ((mkAddFoodCommand f s d).execute db st).1
  | .removeSpec f d =>
      let p := mkRemoveFoodCommand st f d
      (p.1.execute db p.2).1

/-- The executed command objects of a session, in run order. -/
def cmdsOf (db : FoodDatabase) (σ : LogManager) : List CmdSpec → List Cmd
  | [] => []
  | spec :: rest => cmdOf db σ.st spec :: cmdsOf db (run db σ spec) rest

/-- A command with its `executed` flag cleared (the state a command is in
after its `undo` ran, or before its first `execute`). -/
def clearCmd : Cmd → Cmd
  | .add f s d _ => .add f s d false
  | .remove f s d _ => .remove f s d false

/-- `totalValue(day)` readings taken after each `run` call: v₁, …, vₙ. -/
def runSeq (db : FoodDatabase) (fuel : Nat) (day : String) (σ : LogManager) :
    List CmdSpec → List ℚ
  | [] => []
  | spec :: rest =>
      totalValue db fuel (run db σ spec).st day :: runSeq db fuel day (run db σ spec) rest

/-- `totalValue(day)` readings taken before each `run` call: v₀, …, vₙ₋₁. -/
def prefixSeq (db : FoodDatabase) (fuel : Nat) (day : String) (σ : LogManager) :
    List CmdSpec → List ℚ
  | [] => []
  | spec :: rest =>
      totalValue db fuel σ.st day :: prefixSeq db fuel day (run db σ spec) rest

/-- Iterated `undo`. -/
def undoN (db : FoodDatabase) : Nat → LogManager → LogManager
  | 0, σ => σ
  | n + 1, σ => (undoN db n σ).undo db

/-- `totalValue(day)` readings taken after each of `n` successive `undo`
calls. -/
def undoSeq (db : FoodDatabase) (fuel : Nat) (day : String) :
    Nat → LogManager → List ℚ
  | 0, _ => []
  | n + 1, σ =>
      undoSeq db fuel day n σ ++ [totalValue db fuel ((undoN db n σ).undo db).st day]

/-- Iterated `redo`. -/
def redoN (db : FoodDatabase) : Nat → LogManager → LogManager
  | 0, σ => σ
  | n + 1, σ => redoN db n (σ.redo db)

/-- `totalValue(day)` readings taken after each of `n` successive `redo`
calls. -/
def redoSeq (db : FoodDatabase) (fuel : Nat) (day : String) :
    Nat → LogManager → List ℚ
  | 0, _ => []
  | n + 1, σ =>
      totalValue db fuel (σ.redo db).st day :: redoSeq db fuel day n (σ.redo db)

/-- The log-state effect of one `run` call (the command's `execute`, including
the state threading of the `RemoveFoodCommand` constructor). -/
def stepSt (db : FoodDatabase) (st : LogState) : CmdSpec → LogState
  | .addSpec f s d => (addFoodToLog db st f s d).2
  | .removeSpec f d => (removeFoodFromLog (mkRemoveFoodCommand st f d).2 f d).2

/-- An Add request is fresh at a state when its (day, food) pair has no
existing record; Remove requests are unconstrained. -/
def freshSpec (st : LogState) : CmdSpec → Bool
  | .addSpec f _ d => (servingsOf st d f).isNone
  | .removeSpec _ _ => true

/-- Every Add request of the session targets a (day, food) pair with no
existing record at the moment it executes.  (This is the hypothesis under
which `AddFoodCommand::undo` — which deletes the whole record — is an exact
inverse.) -/
def freshAdds (db : FoodDatabase) (σ : LogManager) : List CmdSpec → Bool
  | [] => true
  | spec :: rest => freshSpec σ.st spec && freshAdds db (run db σ spec) rest

/-! ## Concrete fixtures (used by witnesses and counterexamples) -/

/-- A one-food catalog: the leaf `apple` at 95 per serving. -/
def dbApple : FoodDatabase := ⟨[("apple", .basic ⟨"apple", ["fruit"], 95⟩)]⟩

/-- The spec's scenario catalog: leaves `apple` 95 and `banana` 105, composite
`fruit_bowl` = {apple×2, banana×1}. -/
def dbFruit : FoodDatabase :=
  ⟨[("apple", .basic ⟨"apple", ["fruit"], 95⟩),
    ("banana", .basic ⟨"banana", ["fruit"], 105⟩),
    ("fruit_bowl", .composite ⟨"fruit_bowl", ["fruit", "bowl"], [("apple", 2), ("banana", 1)]⟩)]⟩

/-- A rank function for `dbFruit`: leaves at 0, the bowl at 1. -/
def rankFruit (id : String) : Nat := if id = "fruit_bowl" then 1 else 0

/-- A catalog where composite `b` references leaf `a`. -/
def dbRef : FoodDatabase :=
  ⟨[("a", .basic ⟨"a", [], 10⟩), ("b", .composite ⟨"b", [], [("a", 2)]⟩)]⟩

/-- Cycle construction through the public API: insert two empty composites,
then link A → B and B → A with `addComponent`. -/
def dbCyc2 : FoodDatabase :=
  (((FoodDatabase.mk []).addFood (some (.composite ⟨"A", ["k"], []⟩))).2.addFood
    (some (.composite ⟨"B", ["k"], []⟩))).2

def dbCyc3 : FoodDatabase := dbCyc2.addComponentTo "A" "B" 1

def dbCyc4 : FoodDatabase := dbCyc3.addComponentTo "B" "A" 1

/-- The log state after recording 1 serving of `apple` on day `D`. -/
def stApple1 : LogState := (addFoodToLog dbApple LogManager.init.st "apple" 1 "D").2

/-! # Theorems -/

/-! ## Association-list helper lemmas -/

theorem lookupFood_eraseKey_self (l : List (String × Food)) (id : String) :
    lookupFood (eraseKey l id) id = none := by
  induction l with
  | nil => rfl
  | cons p rest ih =>
      rcases p with ⟨k, f⟩
      by_cases h : k = id
      · simpa [eraseKey, h] using ih
      · simpa [eraseKey, h, lookupFood] using ih

theorem lookupFood_eraseKey_ne (l : List (String × Food)) (id id2 : String)
    (h : id2 ≠ id) :
    lookupFood (eraseKey l id) id2 = lookupFood l id2 := by
  induction l with
  | nil => rfl
  | cons p rest ih =>
      rcases p with ⟨k, f⟩
      by_cases hp : k = id
      · simp [eraseKey, hp, lookupFood, Ne.symm h, ih]
      · by_cases hq : k = id2
        · simp [eraseKey, hp, lookupFood, hq, h]
        · simp [eraseKey, hp, lookupFood, hq, ih]

theorem lookupComp_upsert_self (l : List (String × ℚ)) (k : String) (v : ℚ) :
    lookupComp (upsert l k v) k = some v := by
  induction l with
  | nil => simp [upsert, lookupComp]
  | cons p rest ih =>
      by_cases h : p.1 = k
      · simp [upsert, h, lookupComp]
      · simp [upsert, h, lookupComp, ih]

theorem upsert_pos (l : List (String × ℚ)) (k : String) (v : ℚ)
    (hl : ∀ p ∈ l, 0 < p.2) (hv : 0 < v) :
    ∀ p ∈ upsert l k v, 0 < p.2 := by
  induction l with
  | nil => intro p hp; simp [upsert] at hp; subst hp; exact hv
  | cons q rest ih =>
      intro p hp
      by_cases h : q.1 = k
      · simp [upsert, h] at hp
        rcases hp with hp | hp
        · subst hp; exact hv
        · exact hl p (List.mem_cons_of_mem q hp)
      · simp only [upsert, if_neg h, List.mem_cons] at hp
        rcases hp with hp | hp
        · subst hp; exact hl q (List.mem_cons_self q rest)
        · exact ih (fun r hr => hl r (List.mem_cons_of_mem q hr)) p hp

/-! ## C8 — keyword search with an empty keyword list -/

/-- C8 (amended): with an empty keyword list, AND-mode search returns every
item, and — contrary to the claim — OR-mode search at the database level also
returns every item (the database short-circuits to `getAllFoods` before the
per-item predicate, which itself would return `false`, is consulted). -/
theorem search_empty_keyword_list (db : FoodDatabase) :
    db.searchByAllKeywords [] = db.getAllFoods ∧
    db.searchByAnyKeyword [] = db.getAllFoods ∧
    ∀ f : Food, f.matchesAnyKeyword [] = false := by
  refine ⟨rfl, rfl, fun f => ?_⟩
  cases f <;> rfl

/-- C8 counterexample: OR-mode search with an empty keyword list does not
return the empty result the claim requires — on a one-item catalog it
returns that item. -/
theorem search_any_empty_nonempty_cex : dbApple.searchByAnyKeyword [] ≠ [] := by
  decide

/-! ## C10 — non-positive component servings are clamped to 1.0 -/

/-- C10: `addComponent` with a live non-self component and servings ≤ 0 does
not reject the call: the component is stored with servings 1.0; and any
`addComponent` call preserves strict positivity of all stored component
multipliers. -/
theorem addComponent_clamps_nonpositive (c : CompositeFood) (fid : String)
    (s : ℚ) (hne : fid ≠ c.id) (hs : s ≤ 0) :
    (c.addComponent (some fid) s).components = upsert c.components fid 1 ∧
    lookupComp (c.addComponent (some fid) s).components fid = some 1 ∧
    ∀ (food : Option String) (s2 : ℚ), (∀ p ∈ c.components, 0 < p.2) →
      ∀ p ∈ (c.addComponent food s2).components, 0 < p.2 := by
  have hcomp : (c.addComponent (some fid) s).components = upsert c.components fid 1 := by
    simp [CompositeFood.addComponent, hs, hne]
  refine ⟨hcomp, by rw [hcomp]; exact lookupComp_upsert_self _ _ _, ?_⟩
  intro food s2 hpos
  match food with
  | none => simpa [CompositeFood.addComponent] using hpos
  | some fid2 =>
      by_cases h2 : fid2 = c.id
      · simpa [CompositeFood.addComponent, h2] using hpos
      · have hval : (0 : ℚ) < if s2 ≤ 0 then 1 else s2 := by
          by_cases hs2 : s2 ≤ 0
          · simp [hs2]
          · simpa [hs2] using lt_of_not_le hs2
        simpa [CompositeFood.addComponent, h2] using
          upsert_pos c.components fid2 _ hpos hval

/-- C10 witness: adding component `y` with servings −3 to a composite stores
it with servings 1. -/
theorem addComponent_clamps_nonpositive_witness :
    lookupComp ((CompositeFood.mk "A" [] [("x", 2)]).addComponent (some "y")
      (-3)).components "y" = some 1 :=
  (addComponent_clamps_nonpositive ⟨"A", [], [("x", 2)]⟩ "y" (-3) (by decide)
    (by decide)).2.1

/-! ## C7 — removal performs no in-use check -/

/-- C7 counterexample: in `dbRef` the composite `b` references `a`, yet
`removeFood "a"` succeeds and deletes `a` — it does not fail with `InUse`. -/
theorem removeFood_ignores_references_cex :
    (dbRef.removeFood "a").1 = true ∧
    (dbRef.removeFood "a").2.getFood "a" = none ∧
    dbRef.getFood "b" = some (.composite ⟨"b", [], [("a", 2)]⟩) := by
  decide

/-- C7 (amended): `removeFood` checks nothing but key presence: even when
another catalog item still references `id`, removal reports presence, deletes
the item, and leaves the referencing composite (and its dangling component
reference) in place. -/
theorem removeFood_unconditional (db : FoodDatabase) (id cid : String)
    (c : CompositeFood) (hc : db.getFood cid = some (.composite c))
    (hne : cid ≠ id) (_hmem : id ∈ c.components.map (fun p => p.1)) :
    (db.removeFood id).1 = (db.getFood id).isSome ∧
    (db.removeFood id).2.getFood id = none ∧
    (db.removeFood id).2.getFood cid = some (.composite c) := by
  refine ⟨rfl, lookupFood_eraseKey_self _ _, ?_⟩
  show lookupFood (eraseKey db.foods id) cid = _
  rw [lookupFood_eraseKey_ne db.foods id cid hne]
  exact hc

/-- C7 witness: removing the referenced leaf `a` from `dbRef` succeeds and
leaves `b` referencing the now-missing `a`. -/
theorem removeFood_unconditional_witness :
    (dbRef.removeFood "a").1 = (dbRef.getFood "a").isSome ∧
    (dbRef.removeFood "a").2.getFood "a" = none ∧
    (dbRef.removeFood "a").2.getFood "b" = some (.composite ⟨"b", [], [("a", 2)]⟩) :=
  removeFood_unconditional dbRef "a" "b" ⟨"b", [], [("a", 2)]⟩ (by decide)
    (by decide) (by decide)

/-! ## C1 — no cycle detection beyond direct self-reference -/

/-- C1 counterexample: through catalog insertions and component additions the
catalog `dbCyc4` is reached in which composite `A`'s component closure
contains `A` itself (and likewise for `B`); the cycle-creating call succeeded
and changed the catalog instead of failing. -/
theorem cycle_admitted_cex :
    inOwnClosure dbCyc4 "A" = true ∧ inOwnClosure dbCyc4 "B" = true ∧
    dbCyc4 ≠ dbCyc3 := by
  decide

/-- C1 (amended): only a direct self-reference is rejected —
`addComponent` with the composite's own id leaves it unchanged — while
catalog insertion checks nothing but duplicate ids: any item with a fresh id
is admitted, whatever its components, so indirect cycles are not detected. -/
theorem insertion_checks_only_duplicates :
    (∀ (c : CompositeFood) (s : ℚ), c.addComponent (some c.id) s = c) ∧
    (∀ (db : FoodDatabase) (f : Food), db.getFood f.getId = none →
      (db.addFood (some f)).1 = true ∧
      (db.addFood (some f)).2.foods = db.foods ++ [(f.getId, f)]) := by
  constructor
  · intro c s
    simp [CompositeFood.addComponent]
  · intro db f h
    have hnone : (db.getFood f.getId).isSome = false := by
      rw [h]; rfl
    constructor
    · simp [FoodDatabase.addFood, hnone]
    · simp [FoodDatabase.addFood, hnone]

/-- C1 witness: a composite whose component list already mentions its own id
is still admitted into the empty catalog. -/
theorem insertion_checks_only_duplicates_witness :
    ((FoodDatabase.mk []).addFood (some (.composite ⟨"X", [], [("X", 2)]⟩))).1 = true :=
  (insertion_checks_only_duplicates.2 (FoodDatabase.mk [])
    (.composite ⟨"X", [], [("X", 2)]⟩) (by decide)).1

/-! ## Day-Log lookup lemmas -/

theorem getLogEntry_consumedFoods (st : LogState) (d : String) :
    (getLogEntry st d).1.consumedFoods = dayRecords st d := by
  cases h : lookupEntry st.entries d <;> simp [getLogEntry, dayRecords, h]

theorem lookupEntry_append_single (l : List (String × LogEntryM)) (d : String)
    (e : LogEntryM) (d2 : String) :
    lookupEntry (l ++ [(d, e)]) d2 =
      match lookupEntry l d2 with
      | some x => some x
      | none => if d2 = d then some e else none := by
  induction l with
  | nil =>
      by_cases h : d2 = d
      · simp [lookupEntry, h]
      · simp [lookupEntry, h, Ne.symm h]
  | cons p rest ih =>
      by_cases hp : p.1 = d2
      · simp [lookupEntry, hp]
      · simp [lookupEntry, hp, ih]

theorem servingsOf_getLogEntry (st : LogState) (d : String) (d2 f2 : String) :
    servingsOf (getLogEntry st d).2 d2 f2 = servingsOf st d2 f2 := by
  cases h : lookupEntry st.entries d with
  | some e => simp [getLogEntry, h]
  | none =>
      simp only [getLogEntry, h]
      unfold servingsOf dayRecords
      simp only [lookupEntry_append_single]
      cases h2 : lookupEntry st.entries d2 with
      | some x => simp
      | none =>
          by_cases hd : d2 = d
          · simp [hd, findServings]
          · simp [hd]

theorem lookupEntry_update_self (l : List (String × LogEntryM)) (d : String)
    (ne : LogEntryM) (h : (lookupEntry l d).isSome) :
    lookupEntry (updateEntryAt l d ne) d = some ne := by
  induction l with
  | nil => simp [lookupEntry] at h
  | cons p rest ih =>
      by_cases hp : p.1 = d
      · simp [updateEntryAt, hp, lookupEntry]
      · simp only [lookupEntry, if_neg hp] at h
        simp [updateEntryAt, hp, lookupEntry, ih h]

theorem lookupEntry_update_ne (l : List (String × LogEntryM)) (d : String)
    (ne : LogEntryM) (d2 : String) (h : d2 ≠ d) :
    lookupEntry (updateEntryAt l d ne) d2 = lookupEntry l d2 := by
  induction l with
  | nil => rfl
  | cons p rest ih =>
      by_cases hp : p.1 = d
      · have hp2 : p.1 ≠ d2 := by rw [hp]; exact Ne.symm h
        simp [updateEntryAt, hp, lookupEntry, hp2, Ne.symm h]
      · by_cases hq : p.1 = d2
        · simp [updateEntryAt, hp, lookupEntry, hq, h]
        · simp [updateEntryAt, hp, lookupEntry, hq, ih]

theorem updateEntryAt_append_absent (l : List (String × LogEntryM)) (d : String)
    (e ne : LogEntryM) (h : lookupEntry l d = none) :
    updateEntryAt (l ++ [(d, e)]) d ne = l ++ [(d, ne)] := by
  induction l with
  | nil => simp [updateEntryAt]
  | cons p rest ih =>
      by_cases hp : p.1 = d
      · simp [lookupEntry, hp] at h
      · simp only [lookupEntry, if_neg hp] at h
        simp [updateEntryAt, hp, ih h]

theorem findServings_addFoodList (l : List FoodEntry) (fid : String) (s : ℚ)
    (m : MealType) (f2 : String) :
    findServings (addFoodList l fid s m) f2 =
      if f2 = fid then
        some (match findServings l fid with | some s0 => s0 + s | none => s)
      else findServings l f2 := by
  induction l with
  | nil =>
      by_cases h : f2 = fid
      · subst h; simp [addFoodList, findServings]
      · simp [addFoodList, findServings, h, Ne.symm h]
  | cons e rest ih =>
      by_cases he : e.foodId = fid
      · by_cases h2 : f2 = fid
        · subst h2
          simp [addFoodList, he, findServings]
        · have hne : e.foodId ≠ f2 := by rw [he]; exact Ne.symm h2
          simp [addFoodList, he, findServings, hne, h2, Ne.symm h2]
      · by_cases hq : e.foodId = f2
        · have h2 : ¬(f2 = fid) := by rw [← hq]; exact he
          simp [addFoodList, he, findServings, hq, h2]
        · simp [addFoodList, he, findServings, hq, ih]

theorem findServings_removeAllFood (l : List FoodEntry) (fid f2 : String) :
    findServings (removeAllFood l fid) f2 =
      if f2 = fid then none else findServings l f2 := by
  induction l with
  | nil => simp [removeAllFood, findServings]
  | cons e rest ih =>
      by_cases he : e.foodId = fid
      · by_cases h2 : f2 = fid
        · subst h2; simp [removeAllFood, he, ih]
        · have hne : e.foodId ≠ f2 := by rw [he]; exact Ne.symm h2
          simp [removeAllFood, he, ih, h2, findServings, hne, Ne.symm h2]
      · by_cases hq : e.foodId = f2
        · have h2 : ¬(f2 = fid) := by rw [← hq]; exact he
          simp [removeAllFood, he, findServings, hq, h2]
        · simp [removeAllFood, he, findServings, hq, ih]

/-! ## Tracking lemmas: the log operations in terms of `servingsOf` -/

theorem addFoodToLog_fail (db : FoodDatabase) (st : LogState) (f : String)
    (s : ℚ) (d : String) (h : (db.getFood f).isNone ∨ s ≤ 0) :
    addFoodToLog db st f s d = (false, st) := by
  unfold addFoodToLog
  rw [if_pos h]

theorem addFoodToLog_entries_found (db : FoodDatabase) (st : LogState)
    (f : String) (s : ℚ) (d : String) (e : LogEntryM)
    (hv : ¬((db.getFood f).isNone ∨ s ≤ 0))
    (he : lookupEntry st.entries d = some e) :
    (addFoodToLog db st f s d).2 =
      ⟨updateEntryAt st.entries d (e.addFood f s MealType.OTHER), st.idSupply⟩ := by
  unfold addFoodToLog
  rw [if_neg hv]
  simp [getLogEntry, he]

theorem addFoodToLog_entries_fresh (db : FoodDatabase) (st : LogState)
    (f : String) (s : ℚ) (d : String)
    (hv : ¬((db.getFood f).isNone ∨ s ≤ 0))
    (he : lookupEntry st.entries d = none) :
    (addFoodToLog db st f s d).2 =
      ⟨st.entries ++ [(d, LogEntryM.addFood ⟨st.idSupply, d, []⟩ f s MealType.OTHER)],
        st.idSupply + 1⟩ := by
  unfold addFoodToLog
  rw [if_neg hv]
  simp only [getLogEntry, he]
  rw [updateEntryAt_append_absent st.entries d _ _ he]

theorem addFoodToLog_tracking (db : FoodDatabase) (st : LogState) (f : String)
    (s : ℚ) (d : String) (hv : (db.getFood f).isSome) (hs : 0 < s) :
    (addFoodToLog db st f s d).1 = true ∧
    ∀ d2 f2, servingsOf (addFoodToLog db st f s d).2 d2 f2 =
      if d2 = d ∧ f2 = f then
        some (match servingsOf st d f with | some s0 => s0 + s | none => s)
      else servingsOf st d2 f2 := by
  have hcond : ¬((db.getFood f).isNone ∨ s ≤ 0) := by
    rintro (h | h)
    · rw [Option.isNone_iff_eq_none] at h
      rw [h] at hv
      simp at hv
    · exact absurd h (not_le.mpr hs)
  have hflag : (addFoodToLog db st f s d).1 = true := by
    unfold addFoodToLog
    rw [if_neg hcond]
  have hsle : ¬(s ≤ 0) := not_le.mpr hs
  refine ⟨hflag, fun d2 f2 => ?_⟩
  cases he : lookupEntry st.entries d with
  | some e =>
      rw [addFoodToLog_entries_found db st f s d e hcond he]
      unfold servingsOf dayRecords
      by_cases hd : d2 = d
      · subst hd
        rw [lookupEntry_update_self _ _ _ (by simp [he])]
        simp only [LogEntryM.addFood, if_neg hsle]
        rw [findServings_addFoodList]
        simp [he]
      · rw [lookupEntry_update_ne _ _ _ _ hd]
        simp [hd]
  | none =>
      rw [addFoodToLog_entries_fresh db st f s d hcond he]
      unfold servingsOf dayRecords
      simp only [lookupEntry_append_single]
      by_cases hd : d2 = d
      · subst hd
        rw [he]
        simp only [LogEntryM.addFood, if_neg hsle, if_pos rfl]
        simp only [addFoodList]
        by_cases hf : f2 = f
        · simp [findServings, hf, he]
        · simp [findServings, hf, Ne.symm hf, he]
      · cases h2 : lookupEntry st.entries d2 with
        | some x => simp [hd]
        | none => simp [hd, findServings]

theorem removeFoodFromLog_noRec (st : LogState) (f d : String)
    (h : servingsOf st d f = none) :
    removeFoodFromLog st f d = (false, (getLogEntry st d).2) := by
  have hf : findServings (getLogEntry st d).1.consumedFoods f = none := by
    rw [getLogEntry_consumedFoods]; exact h
  simp [removeFoodFromLog, hf]

theorem removeFoodFromLog_tracking (st : LogState) (f d : String) :
    (removeFoodFromLog st f d).1 = (servingsOf st d f).isSome ∧
    ∀ d2 f2, servingsOf (removeFoodFromLog st f d).2 d2 f2 =
      if d2 = d ∧ f2 = f then none else servingsOf st d2 f2 := by
  have hfind : findServings (getLogEntry st d).1.consumedFoods f = servingsOf st d f := by
    rw [getLogEntry_consumedFoods]; rfl
  cases hrec : (servingsOf st d f).isSome with
  | false =>
      have hn : servingsOf st d f = none := by
        cases h : servingsOf st d f
        · rfl
        · rw [h] at hrec; simp at hrec
      have h1 : removeFoodFromLog st f d = (false, (getLogEntry st d).2) :=
        removeFoodFromLog_noRec st f d hn
      refine ⟨by simp [h1, hrec], fun d2 f2 => ?_⟩
      rw [h1]
      show servingsOf (getLogEntry st d).2 d2 f2 = _
      rw [servingsOf_getLogEntry st d d2 f2]
      by_cases hd : d2 = d ∧ f2 = f
      · rcases hd with ⟨hd1, hd2⟩
        subst hd1; subst hd2
        simp [hn]
      · simp [hd]
  | true =>
      cases he : lookupEntry st.entries d with
      | some e =>
          have hp : getLogEntry st d = (e, st) := by simp [getLogEntry, he]
          have hsome : (findServings e.consumedFoods f).isSome = true := by
            have h0 := hfind
            rw [hp] at h0
            simp only at h0
            rw [h0]
            exact hrec
          have h1 : removeFoodFromLog st f d =
              (true, ⟨updateEntryAt st.entries d (e.removeFood f), st.idSupply⟩) := by
            unfold removeFoodFromLog
            rw [hp]
            simp [hsome]
          refine ⟨by simp [h1, hrec], fun d2 f2 => ?_⟩
          rw [h1]
          unfold servingsOf dayRecords
          by_cases hd : d2 = d
          · subst hd
            rw [lookupEntry_update_self _ _ _ (by simp [he])]
            simp only [LogEntryM.removeFood]
            rw [findServings_removeAllFood]
            simp [he]
          · rw [lookupEntry_update_ne _ _ _ _ hd]
            simp [hd]
      | none =>
          exfalso
          have hemp : (getLogEntry st d).1.consumedFoods = [] := by
            simp [getLogEntry, he]
          have : servingsOf st d f = none := by
            rw [← hfind, hemp]
            rfl
          rw [this] at hrec
          simp at hrec

/-! ## C5 — removeConsumption with no matching record -/

/-- C5 counterexample: on the empty Day Log, removing a non-existent record
fails but does not leave the state unchanged: an empty day entry is created
(and an entry id consumed). -/
theorem removeFoodFromLog_mutates_cex :
    (removeFoodFromLog LogManager.init.st "apple" "D").1 = false ∧
    (removeFoodFromLog LogManager.init.st "apple" "D").2 ≠ LogManager.init.st := by
  decide

/-- C5 (amended): with no record for (day, food), `removeFoodFromLog` fails
and leaves every consumption record unchanged, but its unconditional
`getLogEntry` call creates an empty entry for the day (consuming a fresh
entry id) when the day had none. -/
theorem removeFoodFromLog_no_record (st : LogState) (f d : String)
    (h : servingsOf st d f = none) :
    removeFoodFromLog st f d = (false, (getLogEntry st d).2) ∧
    ∀ d2 f2, servingsOf (removeFoodFromLog st f d).2 d2 f2 = servingsOf st d2 f2 := by
  have h1 := removeFoodFromLog_noRec st f d h
  exact ⟨h1, fun d2 f2 => by rw [h1]; exact servingsOf_getLogEntry st d d2 f2⟩

/-- C5 witness: concrete instance on the empty log. -/
theorem removeFoodFromLog_no_record_witness :
    removeFoodFromLog LogManager.init.st "apple" "D" =
      (false, (getLogEntry LogManager.init.st "D").2) :=
  (removeFoodFromLog_no_record LogManager.init.st "apple" "D" (by decide)).1

/-! ## C6 — recordConsumption failure conditions and merge behaviour -/

/-- C6: `addFoodToLog` fails exactly when the food id is absent from the
catalog or servings ≤ 0; on failure the Day Log state is returned untouched;
on success the servings are merged into any existing record for (day, food)
or a fresh record is created (expressed through `servingsOf`). -/
theorem addFoodToLog_spec (db : FoodDatabase) (st : LogState) (f : String)
    (s : ℚ) (d : String) :
    ((addFoodToLog db st f s d).1 = false ↔ ((db.getFood f).isNone ∨ s ≤ 0)) ∧
    ((addFoodToLog db st f s d).1 = false → (addFoodToLog db st f s d).2 = st) ∧
    ((addFoodToLog db st f s d).1 = true → ∀ d2 f2,
      servingsOf (addFoodToLog db st f s d).2 d2 f2 =
        if d2 = d ∧ f2 = f then
          some (match servingsOf st d f with | some s0 => s0 + s | none => s)
        else servingsOf st d2 f2) := by
  by_cases hcond : (db.getFood f).isNone ∨ s ≤ 0
  · have h1 := addFoodToLog_fail db st f s d hcond
    rw [h1]
    exact ⟨by simpa using hcond, fun _ => rfl, fun h => by simp at h⟩
  · have hv : (db.getFood f).isSome := by
      rcases not_or.mp hcond with ⟨hn, _⟩
      cases hx : db.getFood f
      · rw [hx] at hn; simp at hn
      · rfl
    have hs : 0 < s := lt_of_not_le (not_or.mp hcond).2
    obtain ⟨hflag, htrack⟩ := addFoodToLog_tracking db st f s d hv hs
    refine ⟨?_, ?_, fun _ => htrack⟩
    · rw [hflag]
      exact iff_of_false (by simp) hcond
    · rw [hflag]
      intro h
      simp at h

/-- C6 witness: recording 1 serving of `apple` on day `D` in the fresh log
stores a record of 1 serving. -/
theorem addFoodToLog_spec_witness :
    servingsOf (addFoodToLog dbApple LogManager.init.st "apple" 1 "D").2 "D" "apple" =
      some 1 := by
  have h := (addFoodToLog_spec dbApple LogManager.init.st "apple" 1 "D").2.2
    (by decide) "D" "apple"
  rw [h]
  decide

/-! ## C4 — merge-on-add: s1 then s2 equals s1+s2 once -/

theorem updateEntryAt_updateEntryAt (l : List (String × LogEntryM)) (d : String)
    (x y : LogEntryM) :
    updateEntryAt (updateEntryAt l d x) d y = updateEntryAt l d y := by
  induction l with
  | nil => rfl
  | cons p rest ih =>
      by_cases hp : p.1 = d
      · simp [updateEntryAt, hp]
      · simp [updateEntryAt, hp, ih]

theorem addFoodList_addFoodList (l : List FoodEntry) (fid : String)
    (s1 s2 : ℚ) (m : MealType) :
    addFoodList (addFoodList l fid s1 m) fid s2 m = addFoodList l fid (s1 + s2) m := by
  induction l with
  | nil => simp [addFoodList, add_assoc]
  | cons e rest ih =>
      by_cases he : e.foodId = fid
      · simp [addFoodList, he, add_assoc]
      · simp [addFoodList, he, ih]

theorem addFood_addFood (e : LogEntryM) (f : String) (s1 s2 : ℚ) (m : MealType)
    (h1 : 0 < s1) (h2 : 0 < s2) :
    (e.addFood f s1 m).addFood f s2 m = e.addFood f (s1 + s2) m := by
  have g1 : ¬(s1 ≤ 0) := not_le.mpr h1
  have g2 : ¬(s2 ≤ 0) := not_le.mpr h2
  have g12 : ¬(s1 + s2 ≤ 0) := not_le.mpr (by positivity)
  simp [LogEntryM.addFood, g1, g2, g12, addFoodList_addFoodList]

theorem addValidCond (db : FoodDatabase) (f : String) (s : ℚ)
    (hv : (db.getFood f).isSome) (hs : 0 < s) :
    ¬((db.getFood f).isNone ∨ s ≤ 0) := by
  rintro (h | h)
  · rw [Option.isNone_iff_eq_none] at h
    rw [h] at hv
    simp at hv
  · exact absurd h (not_le.mpr hs)

theorem addFoodToLog_twice (db : FoodDatabase) (st : LogState) (f : String)
    (s1 s2 : ℚ) (d : String) (hv : (db.getFood f).isSome)
    (h1 : 0 < s1) (h2 : 0 < s2) :
    (addFoodToLog db (addFoodToLog db st f s1 d).2 f s2 d).2 =
      (addFoodToLog db st f (s1 + s2) d).2 := by
  have hc1 := addValidCond db f s1 hv h1
  have hc2 := addValidCond db f s2 hv h2
  have hc12 := addValidCond db f (s1 + s2) hv (by positivity)
  cases he : lookupEntry st.entries d with
  | some e =>
      have hst1 := addFoodToLog_entries_found db st f s1 d e hc1 he
      have he1 : lookupEntry (addFoodToLog db st f s1 d).2.entries d =
          some (e.addFood f s1 MealType.OTHER) := by
        rw [hst1]
        exact lookupEntry_update_self _ _ _ (by simp [he])
      have hst2 := addFoodToLog_entries_found db (addFoodToLog db st f s1 d).2 f s2 d
        (e.addFood f s1 MealType.OTHER) hc2 he1
      rw [hst2, hst1]
      rw [addFoodToLog_entries_found db st f (s1 + s2) d e hc12 he]
      simp only [updateEntryAt_updateEntryAt]
      rw [addFood_addFood e f s1 s2 MealType.OTHER h1 h2]
  | none =>
      have hst1 := addFoodToLog_entries_fresh db st f s1 d hc1 he
      have he1 : lookupEntry (addFoodToLog db st f s1 d).2.entries d =
          some (LogEntryM.addFood ⟨st.idSupply, d, []⟩ f s1 MealType.OTHER) := by
        rw [hst1]
        rw [lookupEntry_append_single]
        rw [he]
        simp
      have hst2 := addFoodToLog_entries_found db (addFoodToLog db st f s1 d).2 f s2 d
        (LogEntryM.addFood ⟨st.idSupply, d, []⟩ f s1 MealType.OTHER) hc2 he1
      rw [hst2, hst1]
      rw [addFoodToLog_entries_fresh db st f (s1 + s2) d hc12 he]
      simp only
      rw [updateEntryAt_append_absent st.entries d _ _ he]
      rw [addFood_addFood _ f s1 s2 MealType.OTHER h1 h2]

theorem dayRecords_addFoodToLog (db : FoodDatabase) (st : LogState) (f : String)
    (s : ℚ) (d : String) (hv : (db.getFood f).isSome) (hs : 0 < s) :
    dayRecords (addFoodToLog db st f s d).2 d =
      addFoodList (dayRecords st d) f s MealType.OTHER := by
  have hc := addValidCond db f s hv hs
  have hsle : ¬(s ≤ 0) := not_le.mpr hs
  cases he : lookupEntry st.entries d with
  | some e =>
      rw [addFoodToLog_entries_found db st f s d e hc he]
      unfold dayRecords
      rw [lookupEntry_update_self _ _ _ (by simp [he])]
      simp [LogEntryM.addFood, hsle, he]
  | none =>
      rw [addFoodToLog_entries_fresh db st f s d hc he]
      unfold dayRecords
      simp only [lookupEntry_append_single, he]
      simp [LogEntryM.addFood, hsle, he]

theorem addFoodList_not_found (l : List FoodEntry) (f : String) (s : ℚ)
    (m : MealType) (h : findServings l f = none) :
    addFoodList l f s m = l ++ [⟨f, s, m⟩] := by
  induction l with
  | nil => simp [addFoodList]
  | cons e rest ih =>
      by_cases he : e.foodId = f
      · simp [findServings, he] at h
      · simp only [findServings, if_neg he] at h
        simp [addFoodList, he, ih h]

theorem findServings_none_count (l : List FoodEntry) (f : String)
    (h : findServings l f = none) : countFood l f = 0 := by
  induction l with
  | nil => rfl
  | cons e rest ih =>
      by_cases he : e.foodId = f
      · simp [findServings, he] at h
      · simp only [findServings, if_neg he] at h
        simp [countFood, List.filter_cons, he] at ih ⊢
        exact ih h

/-- C4: for a catalog food and positive servings s1, s2, recording s1 then s2
for the same (day, food) produces the same Day Log state (entries, entry ids,
id supply and all) as recording s1+s2 once; when the pair had no record, the
result holds exactly one record for the pair, with servings s1+s2. -/
theorem record_merge_on_add (db : FoodDatabase) (st : LogState) (f : String)
    (s1 s2 : ℚ) (d : String) (hv : (db.getFood f).isSome)
    (h1 : 0 < s1) (h2 : 0 < s2) (h0 : servingsOf st d f = none) :
    (addFoodToLog db (addFoodToLog db st f s1 d).2 f s2 d).2 =
      (addFoodToLog db st f (s1 + s2) d).2 ∧
    countFood (dayRecords (addFoodToLog db (addFoodToLog db st f s1 d).2 f s2 d).2 d) f = 1 ∧
    servingsOf (addFoodToLog db (addFoodToLog db st f s1 d).2 f s2 d).2 d f =
      some (s1 + s2) := by
  have heq := addFoodToLog_twice db st f s1 s2 d hv h1 h2
  have hpos12 : 0 < s1 + s2 := by positivity
  refine ⟨heq, ?_, ?_⟩
  · rw [heq]
    rw [dayRecords_addFoodToLog db st f (s1 + s2) d hv hpos12]
    rw [addFoodList_not_found _ _ _ _ h0]
    have hcnt : countFood (dayRecords st d) f = 0 := findServings_none_count _ _ h0
    simp [countFood, List.filter_append] at hcnt ⊢
    simpa [countFood] using hcnt
  · rw [heq]
    have := (addFoodToLog_tracking db st f (s1 + s2) d hv hpos12).2 d f
    rw [this]
    simp [h0]

/-- C4 witness: recording 1 then 2 servings of `apple` on day `D` in the
fresh log equals recording 3 at once, with exactly one record holding 1+2. -/
theorem record_merge_on_add_witness :
    (addFoodToLog dbApple (addFoodToLog dbApple LogManager.init.st "apple" 1 "D").2
        "apple" 2 "D").2 =
      (addFoodToLog dbApple LogManager.init.st "apple" (1 + 2) "D").2 ∧
    countFood (dayRecords (addFoodToLog dbApple
      (addFoodToLog dbApple LogManager.init.st "apple" 1 "D").2 "apple" 2 "D").2 "D")
      "apple" = 1 ∧
    servingsOf (addFoodToLog dbApple
      (addFoodToLog dbApple LogManager.init.st "apple" 1 "D").2 "apple" 2 "D").2 "D"
      "apple" = some (1 + 2) :=
  record_merge_on_add dbApple LogManager.init.st "apple" 1 2 "D" (by decide)
    (by decide) (by decide) (by decide)

/-! ## C9 — RemoveFoodCommand captures servings at construction time -/

theorem mkRemoveFoodCommand_fst (st : LogState) (f d : String) :
    (mkRemoveFoodCommand st f d).1 =
      Cmd.remove f ((servingsOf st d f).getD 1) d false := by
  simp only [mkRemoveFoodCommand, getLogEntry_consumedFoods]
  rfl

/-- C9: a `RemoveFoodCommand` constructed while the (day, food) record holds
`s` servings captures `s` at construction time; executing it (removing the
record) and then undoing it restores a record with the same food id and the
same `s` servings. -/
theorem removeCommand_restores (db : FoodDatabase) (st : LogState) (f d : String)
    (s : ℚ) (hrec : servingsOf st d f = some s)
    (hdb : (db.getFood f).isSome) (hpos : 0 < s) :
    let p := mkRemoveFoodCommand st f d
    let q := p.1.execute db p.2
    let u := q.1.undo db q.2
    p.1 = Cmd.remove f s d false ∧ q.1 = Cmd.remove f s d true ∧
      servingsOf u.2 d f = some s := by
  have hp1 : (mkRemoveFoodCommand st f d).1 = Cmd.remove f s d false := by
    rw [mkRemoveFoodCommand_fst, hrec]
    rfl
  have hp2 : (mkRemoveFoodCommand st f d).2 = (getLogEntry st d).2 := rfl
  have hserv : ∀ d2 f2, servingsOf (mkRemoveFoodCommand st f d).2 d2 f2 =
      servingsOf st d2 f2 := by
    intro d2 f2
    rw [hp2]
    exact servingsOf_getLogEntry st d d2 f2
  obtain ⟨hrf, hrt⟩ := removeFoodFromLog_tracking (mkRemoveFoodCommand st f d).2 f d
  have hflag : (removeFoodFromLog (mkRemoveFoodCommand st f d).2 f d).1 = true := by
    rw [hrf, hserv d f, hrec]
    rfl
  have hq : (mkRemoveFoodCommand st f d).1.execute db (mkRemoveFoodCommand st f d).2 =
      (Cmd.remove f s d true,
        (removeFoodFromLog (mkRemoveFoodCommand st f d).2 f d).2) := by
    rw [hp1]
    simp [Cmd.execute, hflag]
  refine ⟨hp1, by rw [hq], ?_⟩
  show servingsOf (Cmd.undo db
    ((mkRemoveFoodCommand st f d).1.execute db (mkRemoveFoodCommand st f d).2).1
    ((mkRemoveFoodCommand st f d).1.execute db (mkRemoveFoodCommand st f d).2).2).2 d f =
    some s
  rw [hq]
  simp only [Cmd.undo, if_true]
  have htr := (addFoodToLog_tracking db
    (removeFoodFromLog (mkRemoveFoodCommand st f d).2 f d).2 f s d hdb hpos).2 d f
  rw [htr]
  have hnone : servingsOf (removeFoodFromLog (mkRemoveFoodCommand st f d).2 f d).2 d f =
      none := by
    rw [hrt d f]
    simp
  rw [hnone]
  simp

/-- C9 witness: after recording 1 serving of `apple` on day `D`, constructing
a remove command, executing and undoing it restores the record of 1. -/
theorem removeCommand_restores_witness :
    let p := mkRemoveFoodCommand stApple1 "apple" "D"
    let q := p.1.execute dbApple p.2
    let u := q.1.undo dbApple q.2
    p.1 = Cmd.remove "apple" 1 "D" false ∧ q.1 = Cmd.remove "apple" 1 "D" true ∧
      servingsOf u.2 "D" "apple" = some 1 :=
  removeCommand_restores dbApple stApple1 "apple" "D" 1 (by decide) (by decide)
    (by decide)

/-! ## C2 — recursive value computation on acyclic catalogs -/

theorem lookupFood_mem (l : List (String × Food)) (id : String) (f : Food)
    (h : lookupFood l id = some f) : (id, f) ∈ l := by
  induction l with
  | nil => simp [lookupFood] at h
  | cons p rest ih =>
      rcases p with ⟨k, v⟩
      by_cases hp : k = id
      · simp only [lookupFood, if_pos hp] at h
        cases h
        subst hp
        exact List.mem_cons_self _ _
      · simp only [lookupFood, if_neg hp] at h
        exact List.mem_cons_of_mem _ (ih h)

theorem rankOk_components (db : FoodDatabase) (r : String → Nat)
    (hr : rankOk db r = true) (id : String) (c : CompositeFood)
    (hid : db.getFood id = some (.composite c)) :
    ∀ q ∈ c.components, r q.1 < r id := by
  intro q hq
  have hmem : (id, Food.composite c) ∈ db.foods := lookupFood_mem _ _ _ hid
  have h1 := List.all_eq_true.mp hr (id, Food.composite c) hmem
  have h2 : c.components.all (fun q => decide (r q.1 < r id)) = true := h1
  exact of_decide_eq_true (List.all_eq_true.mp h2 q hq)

/-- One-step unfolding of `valuePerServing` at positive fuel. -/
theorem valuePerServing_succ (db : FoodDatabase) (n : Nat) (id : String) :
    valuePerServing db (n + 1) id =
      match db.getFood id with
      | none => 0
      | some (Food.basic b) => b.caloriesPerServing
      | some (Food.composite c) =>
          c.components.foldl (fun acc p => acc + valuePerServing db n p.1 * p.2) 0 := rfl

/-- Fuel insensitivity of `valuePerServing` on ranked-acyclic catalogs:
any fuel exceeding the item's rank computes the same value (the C++ recursion
terminates and this is its value). -/
theorem valuePerServing_stable (db : FoodDatabase) (r : String → Nat)
    (hr : rankOk db r = true) :
    ∀ (n : Nat) (id : String) (f1 f2 : Nat), r id = n → r id < f1 → r id < f2 →
      valuePerServing db f1 id = valuePerServing db f2 id := by
  intro n
  induction n using Nat.strong_induction_on with
  | _ n ih =>
      intro id f1 f2 hn h1 h2
      match f1, f2 with
      | a + 1, b + 1 =>
          rw [valuePerServing_succ db a id, valuePerServing_succ db b id]
          cases hid : db.getFood id with
          | none => rfl
          | some food =>
              cases food with
              | basic bb => rfl
              | composite c =>
                  simp only
                  refine List.foldl_ext _ _ 0 ?_
                  intro acc q hq
                  have hlt : r q.1 < r id := rankOk_components db r hr id c hid q hq
                  have ha : r q.1 < a := by omega
                  have hb : r q.1 < b := by omega
                  rw [ih (r q.1) (by omega) q.1 a b rfl ha hb]

/-- C2: on a catalog with a rank function certifying acyclicity, for any item
in the catalog and any fuel above the item's rank, `valuePerServing` returns
the stored value of a leaf, and for a composite the weighted sum
Σ servings·valuePerServing(component) — with the component values computed at
the same (sufficient) fuel: the defining recursion of the C++ code. -/
theorem valuePerServing_recursive (db : FoodDatabase) (r : String → Nat)
    (hr : rankOk db r = true) (id : String) (food : Food)
    (hid : db.getFood id = some food) (fuel : Nat) (hf : r id < fuel) :
    valuePerServing db fuel id =
      match food with
      | .basic b => b.caloriesPerServing
      | .composite c =>
          c.components.foldl (fun acc p => acc + valuePerServing db fuel p.1 * p.2) 0 := by
  match fuel with
  | n + 1 =>
      cases food with
      | basic bb =>
          show valuePerServing db (n + 1) id = bb.caloriesPerServing
          rw [valuePerServing_succ db n id, hid]
      | composite c =>
          show valuePerServing db (n + 1) id =
            c.components.foldl (fun acc p => acc + valuePerServing db (n + 1) p.1 * p.2) 0
          rw [valuePerServing_succ db n id, hid]
          refine List.foldl_ext _ _ 0 ?_
          intro acc q hq
          have hlt : r q.1 < r id := rankOk_components db r hr id c hid q hq
          rw [valuePerServing_stable db r hr (r q.1) q.1 n (n + 1) rfl (by omega) (by omega)]

/-- C2 witness: the spec's scenario — `valuePerServing(fruit_bowl)` computed
with fuel 2 equals 2·95 + 1·105 = 295 via the recursive equation. -/
theorem valuePerServing_recursive_witness :
    valuePerServing dbFruit 2 "fruit_bowl" = 295 := by
  have h := valuePerServing_recursive dbFruit rankFruit (by decide) "fruit_bowl"
    (.composite ⟨"fruit_bowl", ["fruit", "bowl"], [("apple", 2), ("banana", 1)]⟩)
    (by decide) 2 (by decide)
  rw [h]
  norm_num +decide [valuePerServing, dbFruit, FoodDatabase.getFood, lookupFood]

/-! ## C3 machinery: record-id uniqueness is preserved by the log operations -/

theorem findServings_eq_none_iff (l : List FoodEntry) (f : String) :
    findServings l f = none ↔ f ∉ l.map (fun e => e.foodId) := by
  induction l with
  | nil => simp [findServings]
  | cons e rest ih =>
      by_cases he : e.foodId = f
      · simp [findServings, he]
      · simp [findServings, he, ih, Ne.symm he]

theorem addFoodList_ids_found (l : List FoodEntry) (f : String) (s : ℚ)
    (m : MealType) (h : (findServings l f).isSome) :
    (addFoodList l f s m).map (fun e => e.foodId) = l.map (fun e => e.foodId) := by
  induction l with
  | nil => simp [findServings] at h
  | cons e rest ih =>
      by_cases he : e.foodId = f
      · simp [addFoodList, he]
      · simp only [findServings, if_neg he] at h
        simp [addFoodList, he, ih h]

theorem addFoodList_ids_nodup (l : List FoodEntry) (f : String) (s : ℚ)
    (m : MealType) (h : (l.map (fun e => e.foodId)).Nodup) :
    ((addFoodList l f s m).map (fun e => e.foodId)).Nodup := by
  cases hf : findServings l f with
  | some s0 =>
      rw [addFoodList_ids_found l f s m (by rw [hf]; rfl)]
      exact h
  | none =>
      rw [addFoodList_not_found l f s m hf]
      have hnotin : f ∉ l.map (fun e => e.foodId) := (findServings_eq_none_iff l f).mp hf
      simp [List.nodup_append, h, hnotin]

theorem removeAllFood_sublist (l : List FoodEntry) (fid : String) :
    (removeAllFood l fid).Sublist l := by
  induction l with
  | nil => simp [removeAllFood]
  | cons e rest ih =>
      by_cases he : e.foodId = fid
      · simp only [removeAllFood, if_pos he]
        exact ih.cons e
      · simp only [removeAllFood, if_neg he]
        exact ih.cons₂ e

theorem removeAllFood_ids_nodup (l : List FoodEntry) (fid : String)
    (h : (l.map (fun e => e.foodId)).Nodup) :
    ((removeAllFood l fid).map (fun e => e.foodId)).Nodup :=
  h.sublist ((removeAllFood_sublist l fid).map _)

theorem removeFoodFromLog_found (st : LogState) (f d : String) (e : LogEntryM)
    (he : lookupEntry st.entries d = some e)
    (hs : (findServings e.consumedFoods f).isSome) :
    removeFoodFromLog st f d =
      (true, ⟨updateEntryAt st.entries d (e.removeFood f), st.idSupply⟩) := by
  have hp : getLogEntry st d = (e, st) := by simp [getLogEntry, he]
  unfold removeFoodFromLog
  rw [hp]
  simp [hs]

theorem EntryIdsNodup_getLogEntry (st : LogState) (d : String)
    (h : EntryIdsNodup st) : EntryIdsNodup (getLogEntry st d).2 := by
  cases he : lookupEntry st.entries d with
  | some e =>
      have : (getLogEntry st d).2 = st := by simp [getLogEntry, he]
      rw [this]
      exact h
  | none =>
      intro d2 e2 hl
      simp only [getLogEntry, he] at hl
      rw [lookupEntry_append_single] at hl
      cases h2 : lookupEntry st.entries d2 with
      | some x =>
          rw [h2] at hl
          cases hl
          exact h d2 _ h2
      | none =>
          rw [h2] at hl
          by_cases hd : d2 = d
          · rw [if_pos hd] at hl
            cases hl
            simp
          · rw [if_neg hd] at hl
            cases hl

theorem EntryIdsNodup_addFoodToLog (db : FoodDatabase) (st : LogState)
    (f : String) (s : ℚ) (d : String) (h : EntryIdsNodup st) :
    EntryIdsNodup (addFoodToLog db st f s d).2 := by
  by_cases hcond : (db.getFood f).isNone ∨ s ≤ 0
  · rw [addFoodToLog_fail db st f s d hcond]
    exact h
  · have hsle : ¬(s ≤ 0) := (not_or.mp hcond).2
    cases he : lookupEntry st.entries d with
    | some e =>
        rw [addFoodToLog_entries_found db st f s d e hcond he]
        intro d2 e2 hl
        simp only at hl
        by_cases hd : d2 = d
        · subst hd
          rw [lookupEntry_update_self _ _ _ (by simp [he])] at hl
          cases hl
          simp only [LogEntryM.addFood, if_neg hsle]
          exact addFoodList_ids_nodup _ _ _ _ (h d2 e he)
        · rw [lookupEntry_update_ne _ _ _ _ hd] at hl
          exact h d2 e2 hl
    | none =>
        rw [addFoodToLog_entries_fresh db st f s d hcond he]
        intro d2 e2 hl
        simp only at hl
        rw [lookupEntry_append_single] at hl
        cases h2 : lookupEntry st.entries d2 with
        | some x =>
            rw [h2] at hl
            cases hl
            exact h d2 _ h2
        | none =>
            rw [h2] at hl
            by_cases hd : d2 = d
            · rw [if_pos hd] at hl
              cases hl
              simp [LogEntryM.addFood, hsle, addFoodList]
            · rw [if_neg hd] at hl
              cases hl

theorem EntryIdsNodup_removeFoodFromLog (st : LogState) (f d : String)
    (h : EntryIdsNodup st) : EntryIdsNodup (removeFoodFromLog st f d).2 := by
  cases hrec : servingsOf st d f with
  | none =>
      rw [removeFoodFromLog_noRec st f d hrec]
      exact EntryIdsNodup_getLogEntry st d h
  | some s0 =>
      cases he : lookupEntry st.entries d with
      | none =>
          exfalso
          simp [servingsOf, dayRecords, he, findServings] at hrec
      | some e =>
          have hs2 : (findServings e.consumedFoods f).isSome := by
            have hsv : servingsOf st d f = findServings e.consumedFoods f := by
              simp [servingsOf, dayRecords, he]
            rw [← hsv, hrec]
            rfl
          rw [removeFoodFromLog_found st f d e he hs2]
          intro d2 e2 hl
          simp only at hl
          by_cases hd : d2 = d
          · subst hd
            rw [lookupEntry_update_self _ _ _ (by simp [he])] at hl
            cases hl
            exact removeAllFood_ids_nodup _ _ (h d2 e he)
          · rw [lookupEntry_update_ne _ _ _ _ hd] at hl
            exact h d2 e2 hl

theorem RecordsValid_getLogEntry (db : FoodDatabase) (st : LogState) (d : String)
    (h : RecordsValid db st) : RecordsValid db (getLogEntry st d).2 := by
  intro d2 f2 s2 hs
  rw [servingsOf_getLogEntry st d d2 f2] at hs
  exact h d2 f2 s2 hs

theorem RecordsValid_addFoodToLog (db : FoodDatabase) (st : LogState)
    (f : String) (s : ℚ) (d : String) (h : RecordsValid db st) :
    RecordsValid db (addFoodToLog db st f s d).2 := by
  by_cases hcond : (db.getFood f).isNone ∨ s ≤ 0
  · rw [addFoodToLog_fail db st f s d hcond]
    exact h
  · have hv : (db.getFood f).isSome := by
      rcases not_or.mp hcond with ⟨hn, _⟩
      cases hx : db.getFood f
      · rw [hx] at hn; simp at hn
      · rfl
    have hs : 0 < s := lt_of_not_le (not_or.mp hcond).2
    intro d2 f2 s2 hserv
    rw [(addFoodToLog_tracking db st f s d hv hs).2 d2 f2] at hserv
    by_cases hd : d2 = d ∧ f2 = f
    · rw [if_pos hd] at hserv
      rcases hd with ⟨hd1, hd2⟩
      subst hd1; subst hd2
      refine ⟨hv, ?_⟩
      cases hm : servingsOf st d2 f2 with
      | some s0 =>
          rw [hm] at hserv
          simp only [Option.some.injEq] at hserv
          have := (h d2 f2 s0 hm).2
          rw [← hserv]
          positivity
      | none =>
          rw [hm] at hserv
          simp only [Option.some.injEq] at hserv
          rw [← hserv]
          exact hs
    · rw [if_neg hd] at hserv
      exact h d2 f2 s2 hserv

theorem RecordsValid_removeFoodFromLog (db : FoodDatabase) (st : LogState)
    (f d : String) (h : RecordsValid db st) :
    RecordsValid db (removeFoodFromLog st f d).2 := by
  intro d2 f2 s2 hserv
  rw [(removeFoodFromLog_tracking st f d).2 d2 f2] at hserv
  by_cases hd : d2 = d ∧ f2 = f
  · rw [if_pos hd] at hserv
    cases hserv
  · rw [if_neg hd] at hserv
    exact h d2 f2 s2 hserv

theorem InvL_getLogEntry (db : FoodDatabase) (st : LogState) (d : String)
    (h : InvL db st) : InvL db (getLogEntry st d).2 :=
  ⟨EntryIdsNodup_getLogEntry st d h.1, RecordsValid_getLogEntry db st d h.2⟩

theorem InvL_addFoodToLog (db : FoodDatabase) (st : LogState) (f : String)
    (s : ℚ) (d : String) (h : InvL db st) : InvL db (addFoodToLog db st f s d).2 :=
  ⟨EntryIdsNodup_addFoodToLog db st f s d h.1, RecordsValid_addFoodToLog db st f s d h.2⟩

theorem InvL_removeFoodFromLog (db : FoodDatabase) (st : LogState) (f d : String)
    (h : InvL db st) : InvL db (removeFoodFromLog st f d).2 :=
  ⟨EntryIdsNodup_removeFoodFromLog st f d h.1, RecordsValid_removeFoodFromLog db st f d h.2⟩

theorem InvL_stepSt (db : FoodDatabase) (st : LogState) (spec : CmdSpec)
    (h : InvL db st) : InvL db (stepSt db st spec) := by
  cases spec with
  | addSpec f s d => exact InvL_addFoodToLog db st f s d h
  | removeSpec f d =>
      exact InvL_removeFoodFromLog db _ f d (InvL_getLogEntry db st d h)

theorem InvL_cmdUndo (db : FoodDatabase) (c : Cmd) (st : LogState)
    (h : InvL db st) : InvL db (c.undo db st).2 := by
  cases c with
  | add f s d ex =>
      cases ex
      · exact h
      · exact InvL_removeFoodFromLog db st f d h
  | remove f s d ex =>
      cases ex
      · exact h
      · exact InvL_addFoodToLog db st f s d h

theorem InvL_cmdExecute (db : FoodDatabase) (c : Cmd) (st : LogState)
    (h : InvL db st) : InvL db (c.execute db st).2 := by
  cases c with
  | add f s d ex => exact InvL_addFoodToLog db st f s d h
  | remove f s d ex => exact InvL_removeFoodFromLog db st f d h

theorem InvL_init (db : FoodDatabase) : InvL db LogManager.init.st := by
  constructor
  · intro d e hl
    cases hl
  · intro d f s hs
    simp [servingsOf, dayRecords, LogManager.init, lookupEntry, findServings] at hs

/-! ## C3 machinery: the shape of `run` and the forward traces -/

theorem run_eq (db : FoodDatabase) (σ : LogManager) (spec : CmdSpec) :
    run db σ spec =
      ⟨stepSt db σ.st spec, cmdOf db σ.st spec :: σ.commandHistory, []⟩ := by
  cases spec <;> rfl

theorem runAll_hist (db : FoodDatabase) (σ : LogManager) (specs : List CmdSpec) :
    (runAll db σ specs).commandHistory =
      (cmdsOf db σ specs).reverse ++ σ.commandHistory := by
  induction specs generalizing σ with
  | nil => rfl
  | cons spec rest ih =>
      have hh : (run db σ spec).commandHistory =
          cmdOf db σ.st spec :: σ.commandHistory := by rw [run_eq]
      show (runAll db (run db σ spec) rest).commandHistory = _
      rw [ih (run db σ spec), hh]
      rw [show cmdsOf db σ (spec :: rest) =
        cmdOf db σ.st spec :: cmdsOf db (run db σ spec) rest from rfl]
      rw [List.reverse_cons]
      simp

theorem runAll_redoStack (db : FoodDatabase) (σ : LogManager)
    (specs : List CmdSpec) (h : σ.redoStack = []) :
    (runAll db σ specs).redoStack = [] := by
  induction specs generalizing σ with
  | nil => exact h
  | cons spec rest ih =>
      show (runAll db (run db σ spec) rest).redoStack = []
      exact ih (run db σ spec) (by rw [run_eq])

theorem InvL_run (db : FoodDatabase) (σ : LogManager) (spec : CmdSpec)
    (h : InvL db σ.st) : InvL db (run db σ spec).st := by
  rw [run_eq]
  exact InvL_stepSt db σ.st spec h

/-! ## C3 machinery: day totals only depend on the records (not their order,
meal types, entry ids, or lingering empty entries) -/

theorem foldl_add_eq (g : FoodEntry → ℚ) (l : List FoodEntry) (a : ℚ) :
    l.foldl (fun acc e => acc + g e) a = a + (l.map g).sum := by
  induction l generalizing a with
  | nil => simp
  | cons e rest ih => simp [ih, add_assoc]

theorem totalCaloriesList_eq_sum (db : FoodDatabase) (fuel : Nat)
    (l : List FoodEntry) :
    totalCaloriesList db fuel l =
      (l.map (fun e => valuePerServing db fuel e.foodId * e.servings)).sum := by
  unfold totalCaloriesList
  rw [foldl_add_eq]
  simp

theorem findServings_append (l1 l2 : List FoodEntry) (f : String) :
    findServings (l1 ++ l2) f =
      match findServings l1 f with
      | some s => some s
      | none => findServings l2 f := by
  induction l1 with
  | nil => rfl
  | cons e rest ih =>
      by_cases he : e.foodId = f
      · simp [findServings, he]
      · simp [findServings, he, ih]

theorem findServings_split (l : List FoodEntry) (f : String) (s : ℚ)
    (h : findServings l f = some s) :
    ∃ a e2 b, l = a ++ e2 :: b ∧ e2.foodId = f ∧ e2.servings = s ∧
      findServings a f = none := by
  induction l with
  | nil => cases h
  | cons e rest ih =>
      by_cases he : e.foodId = f
      · simp only [findServings, if_pos he, Option.some.injEq] at h
        exact ⟨[], e, rest, rfl, he, h, rfl⟩
      · simp only [findServings, if_neg he] at h
        obtain ⟨a, e2, b, h1, h2, h3, h4⟩ := ih h
        exact ⟨e :: a, e2, b, by simp [h1], h2, h3, by simp [findServings, he, h4]⟩

theorem entries_perm (l1 l2 : List FoodEntry)
    (h1 : (l1.map (fun e => e.foodId)).Nodup)
    (h2 : (l2.map (fun e => e.foodId)).Nodup)
    (hf : ∀ f, findServings l1 f = findServings l2 f) :
    (l1.map (fun e => (e.foodId, e.servings))).Perm
      (l2.map (fun e => (e.foodId, e.servings))) := by
  induction l1 generalizing l2 with
  | nil =>
      cases l2 with
      | nil => exact List.Perm.refl _
      | cons e2 t2 =>
          exfalso
          have hcontr := hf e2.foodId
          simp [findServings] at hcontr
  | cons e t1 ih =>
      have hsome : findServings l2 e.foodId = some e.servings := by
        rw [← hf e.foodId]
        simp [findServings]
      obtain ⟨a, e2, b, hsplit, hid, hserv, hnone⟩ :=
        findServings_split l2 e.foodId e.servings hsome
      subst hsplit
      have h1p := List.nodup_cons.mp
        (show (e.foodId :: t1.map (fun e => e.foodId)).Nodup from h1)
      have h2ids : ((a.map fun e => e.foodId) ++ e2.foodId :: (b.map fun e => e.foodId)).Nodup := by
        have h2c := h2
        simp only [List.map_append, List.map_cons] at h2c
        exact h2c
      have hmid := List.nodup_cons.mp (List.nodup_middle.mp h2ids)
      have h2ab : (((a ++ b).map (fun e => e.foodId))).Nodup := by
        rw [List.map_append]
        exact hmid.2
      have hnotin2 : e2.foodId ∉ ((a ++ b).map (fun e => e.foodId)) := by
        rw [List.map_append]
        exact hmid.1
      have hff : ∀ f2, findServings t1 f2 = findServings (a ++ b) f2 := by
        intro f2
        by_cases hfe : f2 = e.foodId
        · subst hfe
          rw [(findServings_eq_none_iff t1 _).mpr h1p.1]
          rw [(findServings_eq_none_iff (a ++ b) _).mpr (by rw [← hid]; exact hnotin2)]
        · have step1 : findServings t1 f2 = findServings (e :: t1) f2 := by
            have : e.foodId ≠ f2 := fun hh => hfe hh.symm
            simp [findServings, this]
          rw [step1, hf f2, findServings_append, findServings_append]
          cases ha : findServings a f2 with
          | some s1 => rfl
          | none =>
              have : e2.foodId ≠ f2 := by rw [hid]; exact fun hh => hfe hh.symm
              simp [findServings, this]
      have hperm := ih (a ++ b) h1p.2 h2ab hff
      show ((e.foodId, e.servings) :: t1.map (fun e => (e.foodId, e.servings))).Perm _
      have hmap : (a ++ e2 :: b).map (fun e => (e.foodId, e.servings)) =
          a.map (fun e => (e.foodId, e.servings)) ++
            (e2.foodId, e2.servings) :: b.map (fun e => (e.foodId, e.servings)) := by
        simp
      rw [hmap]
      refine List.Perm.trans (hperm.cons (e.foodId, e.servings)) ?_
      rw [show ((e.foodId, e.servings) : String × ℚ) = (e2.foodId, e2.servings) from by
        rw [hid, hserv]]
      rw [List.map_append]
      exact List.perm_middle.symm

theorem totalValue_eq_day (db : FoodDatabase) (fuel : Nat) (st : LogState)
    (d : String) :
    totalValue db fuel st d = totalCaloriesList db fuel (dayRecords st d) := by
  cases h : lookupEntry st.entries d <;>
    simp [totalValue, dayRecords, h, totalCaloriesList]

theorem dayRecords_nodup (st : LogState) (d : String) (h : EntryIdsNodup st) :
    ((dayRecords st d).map (fun e => e.foodId)).Nodup := by
  cases he : lookupEntry st.entries d with
  | some e =>
      have : dayRecords st d = e.consumedFoods := by simp [dayRecords, he]
      rw [this]
      exact h d e he
  | none =>
      simp [dayRecords, he]

theorem totalValue_congr (db : FoodDatabase) (fuel : Nat) (st st' : LogState)
    (d : String) (h1 : EntryIdsNodup st) (h2 : EntryIdsNodup st')
    (hs : StEquiv st st') :
    totalValue db fuel st d = totalValue db fuel st' d := by
  rw [totalValue_eq_day, totalValue_eq_day, totalCaloriesList_eq_sum,
    totalCaloriesList_eq_sum]
  have hperm := entries_perm (dayRecords st d) (dayRecords st' d)
    (dayRecords_nodup st d h1) (dayRecords_nodup st' d h2) (fun f => hs d f)
  have hfact : ∀ l : List FoodEntry,
      l.map (fun e => valuePerServing db fuel e.foodId * e.servings) =
        (l.map (fun e => (e.foodId, e.servings))).map
          (fun q => valuePerServing db fuel q.1 * q.2) := by
    intro l
    rw [List.map_map]
    rfl
  rw [hfact, hfact]
  exact (hperm.map _).sum_eq

/-! ## C3 machinery: one command round-trips under the freshness hypothesis -/

theorem valid_of_not_cond (db : FoodDatabase) (f : String) (s : ℚ)
    (h : ¬((db.getFood f).isNone ∨ s ≤ 0)) : (db.getFood f).isSome ∧ 0 < s := by
  rcases not_or.mp h with ⟨hn, hs⟩
  constructor
  · cases hx : db.getFood f
    · rw [hx] at hn; simp at hn
    · rfl
  · exact lt_of_not_le hs

theorem cmdOf_addSpec (db : FoodDatabase) (st : LogState) (f : String) (s : ℚ)
    (d : String) :
    cmdOf db st (.addSpec f s d) = Cmd.add f s d (addFoodToLog db st f s d).1 := rfl

theorem cmdOf_removeSpec (db : FoodDatabase) (st : LogState) (f d : String) :
    cmdOf db st (.removeSpec f d) =
      Cmd.remove f ((servingsOf st d f).getD 1) d
        (removeFoodFromLog (mkRemoveFoodCommand st f d).2 f d).1 := by
  show ((mkRemoveFoodCommand st f d).1.execute db (mkRemoveFoodCommand st f d).2).1 = _
  rw [mkRemoveFoodCommand_fst]
  rfl

theorem servingsOf_mkRemove (st : LogState) (f d d2 f2 : String) :
    servingsOf (mkRemoveFoodCommand st f d).2 d2 f2 = servingsOf st d2 f2 :=
  servingsOf_getLogEntry st d d2 f2

theorem stepSt_remove_servings (db : FoodDatabase) (st : LogState)
    (f d d2 f2 : String) :
    servingsOf (stepSt db st (.removeSpec f d)) d2 f2 =
      if d2 = d ∧ f2 = f then none else servingsOf st d2 f2 := by
  show servingsOf (removeFoodFromLog (mkRemoveFoodCommand st f d).2 f d).2 d2 f2 = _
  rw [(removeFoodFromLog_tracking (mkRemoveFoodCommand st f d).2 f d).2 d2 f2]
  by_cases hd : d2 = d ∧ f2 = f
  · rw [if_pos hd, if_pos hd]
  · rw [if_neg hd, if_neg hd]
    exact servingsOf_mkRemove st f d d2 f2

theorem removeFlag_eq (st : LogState) (f d : String) :
    (removeFoodFromLog (mkRemoveFoodCommand st f d).2 f d).1 =
      (servingsOf st d f).isSome := by
  rw [(removeFoodFromLog_tracking (mkRemoveFoodCommand st f d).2 f d).1]
  rw [servingsOf_mkRemove]

theorem InvL_stepSt_remove (db : FoodDatabase) (st : LogState) (f d : String)
    (h : InvL db st) : InvL db (stepSt db st (.removeSpec f d)) :=
  InvL_stepSt db st (.removeSpec f d) h

theorem cmd_undo_exact (db : FoodDatabase) (st τ : LogState) (spec : CmdSpec)
    (hInv : InvL db st) (hτ : InvL db τ)
    (hsim : StEquiv τ (stepSt db st spec)) (hfresh : freshSpec st spec = true) :
    StEquiv ((cmdOf db st spec).undo db τ).2 st ∧
    InvL db ((cmdOf db st spec).undo db τ).2 ∧
    ((cmdOf db st spec).undo db τ).1 = clearCmd (cmdOf db st spec) := by
  cases spec with
  | addSpec f s d =>
      rw [cmdOf_addSpec]
      by_cases hcond : (db.getFood f).isNone ∨ s ≤ 0
      · have hfail := addFoodToLog_fail db st f s d hcond
        have hb : (addFoodToLog db st f s d).1 = false := by rw [hfail]
        rw [hb]
        have hstep : stepSt db st (.addSpec f s d) = st := by
          show (addFoodToLog db st f s d).2 = st
          rw [hfail]
        rw [hstep] at hsim
        exact ⟨hsim, hτ, rfl⟩
      · obtain ⟨hv, hs⟩ := valid_of_not_cond db f s hcond
        have hb : (addFoodToLog db st f s d).1 = true :=
          (addFoodToLog_tracking db st f s d hv hs).1
        rw [hb]
        have hundo : (Cmd.add f s d true).undo db τ =
            (.add f s d false, (removeFoodFromLog τ f d).2) := by
          simp [Cmd.undo]
        rw [hundo]
        refine ⟨?_, InvL_removeFoodFromLog db τ f d hτ, rfl⟩
        intro d2 f2
        show servingsOf (removeFoodFromLog τ f d).2 d2 f2 = servingsOf st d2 f2
        rw [(removeFoodFromLog_tracking τ f d).2 d2 f2]
        have htr := (addFoodToLog_tracking db st f s d hv hs).2 d2 f2
        by_cases hd : d2 = d ∧ f2 = f
        · rw [if_pos hd]
          rcases hd with ⟨hd1, hd2⟩
          subst hd1; subst hd2
          have hn : (servingsOf st d2 f2).isNone = true := hfresh
          cases hm : servingsOf st d2 f2
          · rfl
          · rw [hm] at hn; simp at hn
        · rw [if_neg hd]
          rw [hsim d2 f2]
          show servingsOf (addFoodToLog db st f s d).2 d2 f2 = _
          rw [htr, if_neg hd]
  | removeSpec f d =>
      rw [cmdOf_removeSpec]
      cases hrec : servingsOf st d f with
      | none =>
          have hb : (removeFoodFromLog (mkRemoveFoodCommand st f d).2 f d).1 = false := by
            rw [removeFlag_eq, hrec]
            rfl
          rw [hb]
          refine ⟨?_, hτ, rfl⟩
          intro d2 f2
          show servingsOf τ d2 f2 = servingsOf st d2 f2
          rw [hsim d2 f2, stepSt_remove_servings db st f d d2 f2]
          by_cases hd : d2 = d ∧ f2 = f
          · rw [if_pos hd]
            rcases hd with ⟨hd1, hd2⟩
            subst hd1; subst hd2
            rw [hrec]
          · rw [if_neg hd]
      | some s0 =>
          have hb : (removeFoodFromLog (mkRemoveFoodCommand st f d).2 f d).1 = true := by
            rw [removeFlag_eq, hrec]
            rfl
          rw [hb]
          simp only [Option.getD_some]
          have hundo : (Cmd.remove f s0 d true).undo db τ =
              (.remove f s0 d false, (addFoodToLog db τ f s0 d).2) := by
            simp [Cmd.undo]
          rw [hundo]
          obtain ⟨hv0, hs0⟩ := hInv.2 d f s0 hrec
          refine ⟨?_, InvL_addFoodToLog db τ f s0 d hτ, rfl⟩
          intro d2 f2
          show servingsOf (addFoodToLog db τ f s0 d).2 d2 f2 = servingsOf st d2 f2
          rw [(addFoodToLog_tracking db τ f s0 d hv0 hs0).2 d2 f2]
          by_cases hd : d2 = d ∧ f2 = f
          · rw [if_pos hd]
            rcases hd with ⟨hd1, hd2⟩
            subst hd1; subst hd2
            have hτn : servingsOf τ d2 f2 = none := by
              rw [hsim d2 f2, stepSt_remove_servings db st f2 d2 d2 f2]
              simp
            rw [hτn, hrec]
          · rw [if_neg hd]
            rw [hsim d2 f2, stepSt_remove_servings db st f d d2 f2, if_neg hd]

theorem cmd_redo_sim (db : FoodDatabase) (st τ : LogState) (spec : CmdSpec)
    (hτ : InvL db τ) (hsim : StEquiv τ st) :
    StEquiv ((clearCmd (cmdOf db st spec)).execute db τ).2 (stepSt db st spec) ∧
    InvL db ((clearCmd (cmdOf db st spec)).execute db τ).2 := by
  cases spec with
  | addSpec f s d =>
      have hclear : clearCmd (cmdOf db st (.addSpec f s d)) = Cmd.add f s d false := by
        rw [cmdOf_addSpec]
        rfl
      rw [hclear]
      have hexec : (Cmd.add f s d false).execute db τ =
          (.add f s d (addFoodToLog db τ f s d).1, (addFoodToLog db τ f s d).2) := rfl
      rw [hexec]
      refine ⟨?_, InvL_addFoodToLog db τ f s d hτ⟩
      intro d2 f2
      show servingsOf (addFoodToLog db τ f s d).2 d2 f2 =
        servingsOf (addFoodToLog db st f s d).2 d2 f2
      by_cases hcond : (db.getFood f).isNone ∨ s ≤ 0
      · rw [addFoodToLog_fail db τ f s d hcond, addFoodToLog_fail db st f s d hcond]
        exact hsim d2 f2
      · obtain ⟨hv, hs⟩ := valid_of_not_cond db f s hcond
        rw [(addFoodToLog_tracking db τ f s d hv hs).2 d2 f2]
        rw [(addFoodToLog_tracking db st f s d hv hs).2 d2 f2]
        by_cases hd : d2 = d ∧ f2 = f
        · rw [if_pos hd, if_pos hd, hsim d f]
        · rw [if_neg hd, if_neg hd]
          exact hsim d2 f2
  | removeSpec f d =>
      have hclear : clearCmd (cmdOf db st (.removeSpec f d)) =
          Cmd.remove f ((servingsOf st d f).getD 1) d false := by
        rw [cmdOf_removeSpec]
        rfl
      rw [hclear]
      have hexec : (Cmd.remove f ((servingsOf st d f).getD 1) d false).execute db τ =
          (.remove f ((servingsOf st d f).getD 1) d (removeFoodFromLog τ f d).1,
            (removeFoodFromLog τ f d).2) := rfl
      rw [hexec]
      refine ⟨?_, InvL_removeFoodFromLog db τ f d hτ⟩
      intro d2 f2
      show servingsOf (removeFoodFromLog τ f d).2 d2 f2 =
        servingsOf (stepSt db st (.removeSpec f d)) d2 f2
      rw [(removeFoodFromLog_tracking τ f d).2 d2 f2,
        stepSt_remove_servings db st f d d2 f2]
      by_cases hd : d2 = d ∧ f2 = f
      · rw [if_pos hd, if_pos hd]
      · rw [if_neg hd, if_neg hd]
        exact hsim d2 f2

/-! ## C3 machinery: the two phases of the round-trip -/

theorem undo_eq_of_hist (db : FoodDatabase) (σ : LogManager) (c : Cmd)
    (rest : List Cmd) (h : σ.commandHistory = c :: rest) :
    σ.undo db = ⟨(c.undo db σ.st).2, rest, (c.undo db σ.st).1 :: σ.redoStack⟩ := by
  unfold LogManager.undo
  rw [h]

theorem redo_eq_of_stack (db : FoodDatabase) (σ : LogManager) (c : Cmd)
    (rest : List Cmd) (h : σ.redoStack = c :: rest) :
    σ.redo db =
      ⟨(c.execute db σ.st).2, (c.execute db σ.st).1 :: σ.commandHistory, rest⟩ := by
  unfold LogManager.redo
  rw [h]

theorem undo_phase (db : FoodDatabase) (fuel : Nat) (day : String) :
    ∀ (specs : List CmdSpec) (σ τ0 : LogManager),
      InvL db σ.st → InvL db τ0.st →
      StEquiv τ0.st (runAll db σ specs).st →
      freshAdds db σ specs = true →
      τ0.commandHistory = (cmdsOf db σ specs).reverse ++ σ.commandHistory →
      StEquiv (undoN db specs.length τ0).st σ.st ∧
      InvL db (undoN db specs.length τ0).st ∧
      (undoN db specs.length τ0).commandHistory = σ.commandHistory ∧
      (undoN db specs.length τ0).redoStack =
        (cmdsOf db σ specs).map clearCmd ++ τ0.redoStack ∧
      undoSeq db fuel day specs.length τ0 = (prefixSeq db fuel day σ specs).reverse := by
  intro specs
  induction specs with
  | nil =>
      intro σ τ0 hσ hτ hsim hfresh hhist
      exact ⟨hsim, hτ, by simpa using hhist, rfl, rfl⟩
  | cons spec rest ih =>
      intro σ τ0 hσ hτ hsim hfresh hhist
      have hfr : freshSpec σ.st spec = true ∧
          freshAdds db (run db σ spec) rest = true := by
        have h0 : (freshSpec σ.st spec && freshAdds db (run db σ spec) rest) = true :=
          hfresh
        simpa [Bool.and_eq_true] using h0
      have hh : (run db σ spec).commandHistory =
          cmdOf db σ.st spec :: σ.commandHistory := by rw [run_eq]
      have hhist1 : τ0.commandHistory =
          (cmdsOf db (run db σ spec) rest).reverse ++ (run db σ spec).commandHistory := by
        rw [hh, hhist, show cmdsOf db σ (spec :: rest) =
          cmdOf db σ.st spec :: cmdsOf db (run db σ spec) rest from rfl,
          List.reverse_cons]
        simp
      have hσ1 : InvL db (run db σ spec).st := InvL_run db σ spec hσ
      obtain ⟨ih1, ih2, ih3, ih4, ih5⟩ :=
        ih (run db σ spec) τ0 hσ1 hτ hsim hfr.2 hhist1
      have hτ1hist : (undoN db rest.length τ0).commandHistory =
          cmdOf db σ.st spec :: σ.commandHistory := by rw [ih3, hh]
      have hundoeq := undo_eq_of_hist db (undoN db rest.length τ0) _ _ hτ1hist
      have hsimstep : StEquiv (undoN db rest.length τ0).st (stepSt db σ.st spec) := by
        intro d2 f2
        rw [ih1 d2 f2, show (run db σ spec).st = stepSt db σ.st spec from by rw [run_eq]]
      obtain ⟨hu1, hu2, hu3⟩ := cmd_undo_exact db σ.st (undoN db rest.length τ0).st
        spec hσ ih2 hsimstep hfr.1
      have hList : undoN db (spec :: rest).length τ0 = (undoN db rest.length τ0).undo db := rfl
      refine ⟨?_, ?_, ?_, ?_, ?_⟩
      · rw [hList, hundoeq]
        exact hu1
      · rw [hList, hundoeq]
        exact hu2
      · rw [hList, hundoeq]
      · rw [hList, hundoeq]
        show ((cmdOf db σ.st spec).undo db (undoN db rest.length τ0).st).1 ::
            (undoN db rest.length τ0).redoStack = _
        rw [hu3, ih4, show cmdsOf db σ (spec :: rest) =
          cmdOf db σ.st spec :: cmdsOf db (run db σ spec) rest from rfl]
        simp
      · show undoSeq db fuel day rest.length τ0 ++
          [totalValue db fuel ((undoN db rest.length τ0).undo db).st day] = _
        rw [ih5]
        have hread : totalValue db fuel ((undoN db rest.length τ0).undo db).st day =
            totalValue db fuel σ.st day := by
          apply totalValue_congr
          · rw [hundoeq]
            exact hu2.1
          · exact hσ.1
          · intro d2 f2
            rw [hundoeq]
            exact hu1 d2 f2
        rw [hread, show prefixSeq db fuel day σ (spec :: rest) =
          totalValue db fuel σ.st day :: prefixSeq db fuel day (run db σ spec) rest from rfl,
          List.reverse_cons]

theorem redo_phase (db : FoodDatabase) (fuel : Nat) (day : String) :
    ∀ (specs : List CmdSpec) (σ τ0 : LogManager) (R : List Cmd),
      InvL db σ.st → InvL db τ0.st → StEquiv τ0.st σ.st →
      τ0.redoStack = (cmdsOf db σ specs).map clearCmd ++ R →
      redoSeq db fuel day specs.length τ0 = runSeq db fuel day σ specs ∧
      StEquiv (redoN db specs.length τ0).st (runAll db σ specs).st ∧
      InvL db (redoN db specs.length τ0).st ∧
      (redoN db specs.length τ0).redoStack = R := by
  intro specs
  induction specs with
  | nil =>
      intro σ τ0 R hσ hτ hsim hstack
      exact ⟨rfl, hsim, hτ, by simpa using hstack⟩
  | cons spec rest ih =>
      intro σ τ0 R hσ hτ hsim hstack
      have hstack1 : τ0.redoStack = clearCmd (cmdOf db σ.st spec) ::
          ((cmdsOf db (run db σ spec) rest).map clearCmd ++ R) := by
        rw [hstack, show cmdsOf db σ (spec :: rest) =
          cmdOf db σ.st spec :: cmdsOf db (run db σ spec) rest from rfl]
        simp
      have hredoeq := redo_eq_of_stack db τ0 _ _ hstack1
      obtain ⟨hr1, hr2⟩ := cmd_redo_sim db σ.st τ0.st spec hτ hsim
      have hstep : (run db σ spec).st = stepSt db σ.st spec := by rw [run_eq]
      have hproj : (τ0.redo db).st =
          ((clearCmd (cmdOf db σ.st spec)).execute db τ0.st).2 := by rw [hredoeq]
      have hsim1 : StEquiv (τ0.redo db).st (run db σ spec).st := by
        intro d2 f2
        rw [hproj, hstep]
        exact hr1 d2 f2
      have hτ1 : InvL db (τ0.redo db).st := by
        rw [hproj]
        exact hr2
      have hσ1 : InvL db (run db σ spec).st := InvL_run db σ spec hσ
      have hstack2 : (τ0.redo db).redoStack =
          (cmdsOf db (run db σ spec) rest).map clearCmd ++ R := by rw [hredoeq]
      obtain ⟨ihA, ihB, ihC, ihD⟩ :=
        ih (run db σ spec) (τ0.redo db) R hσ1 hτ1 hsim1 hstack2
      refine ⟨?_, ihB, ihC, ihD⟩
      show totalValue db fuel (τ0.redo db).st day ::
        redoSeq db fuel day rest.length (τ0.redo db) = _
      rw [ihA, show runSeq db fuel day σ (spec :: rest) =
        totalValue db fuel (run db σ spec).st day ::
          runSeq db fuel day (run db σ spec) rest from rfl]
      congr 1
      exact totalValue_congr db fuel _ _ day hτ1.1 hσ1.1 hsim1

theorem InvL_runAll (db : FoodDatabase) (specs : List CmdSpec) :
    ∀ σ : LogManager, InvL db σ.st → InvL db (runAll db σ specs).st := by
  induction specs with
  | nil => intro σ h; exact h
  | cons spec rest ih =>
      intro σ h
      exact ih (run db σ spec) (InvL_run db σ spec h)

theorem prefixSeq_eq_dropLast (db : FoodDatabase) (fuel : Nat) (day : String) :
    ∀ (specs : List CmdSpec) (σ : LogManager),
      prefixSeq db fuel day σ specs =
        (totalValue db fuel σ.st day :: runSeq db fuel day σ specs).dropLast := by
  intro specs
  induction specs with
  | nil => intro σ; rfl
  | cons spec rest ih =>
      intro σ
      show totalValue db fuel σ.st day ::
        prefixSeq db fuel day (run db σ spec) rest = _
      rw [ih (run db σ spec)]
      rfl

/-! ## C3 — undo/redo round-trip of the reading sequence -/

/-- C3 (amended): starting from the fresh Day Log, run any finite sequence of
Add/Remove requests in which every Add targets a (day, food) pair with no
record at its execution.  Then undoing until the undo stack is empty reads
back the pre-run readings v₀ … vₙ₋₁ in reverse order, and redoing until the
redo stack is empty reads back the original readings v₁ … vₙ in order.
(Without the freshness hypothesis the undo phase deviates, because
`AddFoodCommand::undo` deletes the whole merged record.) -/
theorem undo_redo_roundtrip (db : FoodDatabase) (fuel : Nat) (day : String)
    (specs : List CmdSpec)
    (hfresh : freshAdds db LogManager.init specs = true) :
    undoSeq db fuel day specs.length (runAll db LogManager.init specs) =
      ((totalValue db fuel LogManager.init.st day ::
        runSeq db fuel day LogManager.init specs).dropLast).reverse ∧
    redoSeq db fuel day specs.length
        (undoN db specs.length (runAll db LogManager.init specs)) =
      runSeq db fuel day LogManager.init specs := by
  have hInv0 := InvL_init db
  have hτInv : InvL db (runAll db LogManager.init specs).st :=
    InvL_runAll db specs LogManager.init hInv0
  have hhist : (runAll db LogManager.init specs).commandHistory =
      (cmdsOf db LogManager.init specs).reverse ++ LogManager.init.commandHistory :=
    runAll_hist db LogManager.init specs
  obtain ⟨hA, hB, _, hD, hE⟩ := undo_phase db fuel day specs LogManager.init
    (runAll db LogManager.init specs) hInv0 hτInv (fun _ _ => rfl) hfresh hhist
  have hred : (undoN db specs.length (runAll db LogManager.init specs)).redoStack =
      (cmdsOf db LogManager.init specs).map clearCmd ++ [] := by
    rw [hD, runAll_redoStack db LogManager.init specs rfl]
  obtain ⟨hF, _, _, _⟩ := redo_phase db fuel day specs LogManager.init
    (undoN db specs.length (runAll db LogManager.init specs)) [] hInv0 hB hA hred
  refine ⟨?_, hF⟩
  rw [hE, prefixSeq_eq_dropLast]

/-- C3 counterexample: two successive Adds of `apple` on the same day (the
second merges into the first record).  The claimed undo-phase reading
sequence would be [95, 0], but the actual readings are [0, 0]:
`AddFoodCommand::undo` removes the whole record including the first command's
servings. -/
theorem undo_readings_cex :
    undoSeq dbApple 1 "D" 2
        (runAll dbApple LogManager.init
          [CmdSpec.addSpec "apple" 1 "D", CmdSpec.addSpec "apple" 1 "D"]) ≠
      ((totalValue dbApple 1 LogManager.init.st "D" ::
        runSeq dbApple 1 "D" LogManager.init
          [CmdSpec.addSpec "apple" 1 "D", CmdSpec.addSpec "apple" 1 "D"]).dropLast).reverse := by
  intro h
  have h3 : undoSeq dbApple 1 "D" 2
      (runAll dbApple LogManager.init
        [CmdSpec.addSpec "apple" 1 "D", CmdSpec.addSpec "apple" 1 "D"]) = [0, 0] := by
    decide
  have h4 : ((totalValue dbApple 1 LogManager.init.st "D" ::
      runSeq dbApple 1 "D" LogManager.init
        [CmdSpec.addSpec "apple" 1 "D", CmdSpec.addSpec "apple" 1 "D"]).dropLast).reverse =
      [totalValue dbApple 1
        (run dbApple LogManager.init (CmdSpec.addSpec "apple" 1 "D")).st "D", 0] := rfl
  have h2 : totalValue dbApple 1
      (run dbApple LogManager.init (CmdSpec.addSpec "apple" 1 "D")).st "D" = 95 := by
    norm_num [totalValue, run, executeCommand, mkAddFoodCommand, Cmd.execute,
      addFoodToLog, getLogEntry, LogManager.init, lookupEntry, updateEntryAt,
      LogEntryM.addFood, addFoodList, totalCaloriesList, valuePerServing, dbApple,
      FoodDatabase.getFood, lookupFood]
  rw [h3, h4, h2] at h
  injection h with ha _
  exact absurd ha (by norm_num)

/-- C3 witness: an Add of a fresh record followed by a Remove satisfies the
freshness hypothesis; the undo phase reads [95, 0] — the reverse of the
pre-run readings [0, 95] — and the redo phase reads [95, 0], the original
run readings, as the amended claim states. -/
theorem undo_redo_roundtrip_witness :
    undoSeq dbApple 1 "D" 2
        (runAll dbApple LogManager.init
          [CmdSpec.addSpec "apple" 1 "D", CmdSpec.removeSpec "apple" "D"]) =
      ((totalValue dbApple 1 LogManager.init.st "D" ::
        runSeq dbApple 1 "D" LogManager.init
          [CmdSpec.addSpec "apple" 1 "D", CmdSpec.removeSpec "apple" "D"]).dropLast).reverse ∧
    redoSeq dbApple 1 "D" 2
        (undoN dbApple 2
          (runAll dbApple LogManager.init
            [CmdSpec.addSpec "apple" 1 "D", CmdSpec.removeSpec "apple" "D"])) =
      runSeq dbApple 1 "D" LogManager.init
        [CmdSpec.addSpec "apple" 1 "D", CmdSpec.removeSpec "apple" "D"] :=
  undo_redo_roundtrip dbApple 1 "D"
    [CmdSpec.addSpec "apple" 1 "D", CmdSpec.removeSpec "apple" "D"] (by decide)

end DietManager
